import Mathlib

/-!
Verification development for the SHENTINELSHIELD-AI repository.

Shallow embedding of two subsystems, translated from the Python source:
  * `src/ai-engine/src/feedback_loop.py` — the analyst feedback buffer
    (`FeedbackBuffer`) and the retraining orchestrator
    (`ModelRetrainingOrchestrator`).
  * `src/backend/app/services/websocket_manager.py` — the WebSocket
    connection manager (`WebSocketConnectionManager`).

Python dicts are embedded as insertion-ordered association lists; datetimes
as natural-number timestamps threaded explicitly as `now` parameters; await
points that can raise are modelled by boolean success flags on the transport
(`WS.sendOk`, `WS.closeOk`); delivered/failed sends and socket lifecycle
actions are recorded in an explicit event trace.
-/

namespace Sentinel

/-! ### Association-list helpers (Python dict semantics)

Python dicts preserve insertion order: assignment to an existing key keeps
its position, a new key is appended at the end, `del` removes the entry.
-/

/-- Lookup of a key in an association list (first match). -/
def aget [DecidableEq α] (k : α) : List (α × β) → Option β
  | [] => none
  | p :: l => if p.1 = k then some p.2 else aget k l

/-- Dict assignment: replace in place when the key is present, else append. -/
def aset [DecidableEq α] (k : α) (v : β) : List (α × β) → List (α × β)
  | [] => [(k, v)]
  | p :: l => if p.1 = k then (k, v) :: l else p :: aset k v l

/-- Dict deletion: remove the first entry with the key. -/
def adel [DecidableEq α] (k : α) : List (α × β) → List (α × β)
  | [] => []
  | p :: l => if p.1 = k then l else p :: adel k l

/-- The keys of an association list are distinct (true of any Python dict). -/
def keysNodup (l : List (α × β)) : Prop := (l.map Prod.fst).Nodup

instance [DecidableEq α] (l : List (α × β)) : Decidable (keysNodup l) := by
  unfold keysNodup
  infer_instance

/-! ### Feedback loop (`src/ai-engine/src/feedback_loop.py`)

A feedback item is the dict shape documented in `FeedbackBuffer.add_feedback`:
threat_log_id, original_classification, corrected_classification,
confidence_score, reason, analyst_id, plus the fields stamped by the buffer
(created_at, is_processed, processed_at).
-/

structure FeedbackItem where
  threat_log_id : String
  original_classification : String
  corrected_classification : String
  confidence_score : ℚ
  reason : String
  analyst_id : String
  created_at : Nat
  is_processed : Bool
  processed_at : Option Nat
deriving DecidableEq

structure FeedbackBuffer where
  retraining_threshold : Nat
  buffer : List FeedbackItem
deriving DecidableEq

namespace FeedbackBuffer

/-- `FeedbackBuffer.should_retrain`: the count of unprocessed items has
reached the retraining threshold. -/
def should_retrain (fb : FeedbackBuffer) : Bool :=
  fb.retraining_threshold ≤ (fb.buffer.filter (fun it => !it.is_processed)).length

/-- `FeedbackBuffer.get_unprocessed_feedback`. -/
def get_unprocessed_feedback (fb : FeedbackBuffer) : List FeedbackItem :=
  fb.buffer.filter (fun it => !it.is_processed)

/-- `FeedbackBuffer.mark_as_processed`: every buffer item whose
`threat_log_id` is in `feedback_ids` gets `is_processed := true` and a fresh
`processed_at` stamp; the returned count is the number of matching items
(the source increments the counter for every match, with no check of the
previous `is_processed` value). -/
def mark_as_processed (fb : FeedbackBuffer) (feedback_ids : List String) (now : Nat) :
    FeedbackBuffer × Nat :=
  ({ fb with
      buffer := fb.buffer.map (fun it =>
        if it.threat_log_id ∈ feedback_ids then
          { it with is_processed := true, processed_at := some now }
        else it) },
   (fb.buffer.filter (fun it => it.threat_log_id ∈ feedback_ids)).length)

/-- Result shape of `get_feedback_statistics`. `feedback_until_retrain` is
`Option`-valued because the empty-buffer branch of the source returns a dict
without that key. -/
structure Stats where
  total_feedback : Nat
  processed : Nat
  unprocessed : Nat
  correction_rate : ℚ
  feedback_until_retrain : Option Nat
deriving DecidableEq

/-- `round(x, 4)` of the source, in exact arithmetic: round to the nearest
multiple of 1/10000, halves up. (Python rounds float ties to even; no claim
in scope evaluates at a tie, where the two differ.) -/
def round4 (q : ℚ) : ℚ := ((q * 10000 + 1/2).floor : ℚ) / 10000

/-- `FeedbackBuffer.get_feedback_statistics`. -/
def get_feedback_statistics (fb : FeedbackBuffer) : Stats :=
  if fb.buffer = [] then
    { total_feedback := 0, processed := 0, unprocessed := 0,
      correction_rate := 0, feedback_until_retrain := none }
  else
    let total := fb.buffer.length
    let processed := (fb.buffer.filter (fun it => it.is_processed)).length
    let unprocessed := total - processed
    let correction_count :=
      (fb.buffer.filter
        (fun it => it.original_classification ≠ it.corrected_classification)).length
    { total_feedback := total, processed := processed, unprocessed := unprocessed,
      correction_rate := round4 ((correction_count : ℚ) / (total : ℚ)),
      feedback_until_retrain := some (fb.retraining_threshold - unprocessed) }

end FeedbackBuffer

/-- A retraining job record, as built by
`ModelRetrainingOrchestrator.trigger_retraining`. -/
structure Job where
  job_id : String
  status : String
  feedback_count : Nat
  created_at : Nat
  feedback_ids : List String
deriving DecidableEq

structure Orchestrator where
  feedback_buffer : FeedbackBuffer
  retraining_jobs : List Job
deriving DecidableEq

namespace Orchestrator

/-- `ModelRetrainingOrchestrator.trigger_retraining`: returns `false` and
changes nothing when `should_retrain` is false; otherwise snapshots the
unprocessed items, appends one pending job recording their ids and count,
marks those ids processed and returns `true`. -/
def trigger_retraining (o : Orchestrator) (now : Nat) : Orchestrator × Bool :=
  if !o.feedback_buffer.should_retrain then (o, false)
  else
    let unprocessed := o.feedback_buffer.get_unprocessed_feedback
    let feedback_ids := unprocessed.map FeedbackItem.threat_log_id
    let job : Job :=
      { job_id := toString now, status := "pending",
        feedback_count := unprocessed.length, created_at := now,
        feedback_ids := feedback_ids }
    let fb := (o.feedback_buffer.mark_as_processed feedback_ids now).1
    ({ feedback_buffer := fb, retraining_jobs := o.retraining_jobs ++ [job] }, true)

end Orchestrator

/-! ### WebSocket manager (`src/backend/app/services/websocket_manager.py`)

The three event payload schemas, the nested connection registry
`{organization_id: {user_id: {connection_id: websocket}}}`, the connection
metadata dict and the per-(org,user) message queue.  A websocket transport is
abstracted to the two await points the manager exercises: `send_json` and
`close`, each of which either succeeds or raises, modelled by a boolean flag.
Every send, failed send, close, failed close and registry disconnect is
recorded in an event trace returned alongside the updated state. -/

abbrev OrgId := String
abbrev UserId := String
abbrev ConnId := String

/-- `ThreatEvent` pydantic schema. -/
structure ThreatEvent where
  id : String
  organization_id : OrgId
  timestamp : Nat
  source_ip : String
  destination_ip : String
  severity : String
  risk_score : ℚ
  action : String
  resource : String
  user_agent : String
  is_blocked : Bool
  ai_flagged : Bool
deriving DecidableEq

/-- `SessionUpdate` pydantic schema (`type` is the constant "session_revoked"). -/
structure SessionUpdate where
  user_id : UserId
  organization_id : OrgId
  reason : String
  timestamp : Nat
deriving DecidableEq

/-- `AuditEvent` pydantic schema (`type` is the constant "audit_log");
`details` is an opaque key-value mapping. -/
structure AuditEvent where
  event_type : String
  resource_type : String
  user_id : Option UserId
  organization_id : OrgId
  timestamp : Nat
  details : List (String × String)
deriving DecidableEq

/-- The JSON messages the manager sends over a websocket. -/
inductive Msg where
  | threatDetected (t : ThreatEvent)
  | sessionRevoked (reason : String) (timestamp : Nat)
  | auditLog (a : AuditEvent)
  | heartbeat (timestamp : Nat)
  | raw (payload : String)
deriving DecidableEq

/-- A websocket transport: whether its `send_json` succeeds and whether its
`close` succeeds (a failing call raises in the source). -/
structure WS where
  sendOk : Bool
  closeOk : Bool
deriving DecidableEq

/-- One entry of `connection_metadata`. -/
structure Meta where
  organization_id : OrgId
  user_id : UserId
  connected_at : Nat
  last_heartbeat : Nat
deriving DecidableEq

/-- Observable actions on websockets, in program order. -/
inductive Event where
  | sent (cid : ConnId) (msg : Msg)
  | sendFailed (cid : ConnId)
  | closed (cid : ConnId) (code : Nat)
  | closeFailed (cid : ConnId)
  | disconnected (cid : ConnId)
deriving DecidableEq

/-- The connection id an event is about. -/
def Event.cid : Event → ConnId
  | .sent c _ => c
  | .sendFailed c => c
  | .closed c _ => c
  | .closeFailed c => c
  | .disconnected c => c

/-- The message an event delivered to the given connection, if any. -/
def sentTo (cid : ConnId) : Event → Option Msg
  | .sent c m => if c = cid then some m else none
  | _ => none

abbrev UserPool := List (ConnId × WS)
abbrev OrgPool := List (UserId × UserPool)

/-- State of a `WebSocketConnectionManager`. -/
structure ManagerState where
  active_connections : List (OrgId × OrgPool)
  connection_metadata : List (ConnId × Meta)
  message_queue : List (String × List Msg)
deriving DecidableEq

namespace ManagerState

/-- The `f"{org_id}:{user_id}"` key of `message_queue`. -/
def queueKey (org : OrgId) (user : UserId) : String := org ++ ":" ++ user

/-- `WebSocketConnectionManager.disconnect`: no-op when the connection id has
no metadata; otherwise removes the registry entry at the metadata key (when
present) and deletes the metadata. -/
def disconnect (s : ManagerState) (cid : ConnId) : ManagerState × List Event :=
  match aget cid s.connection_metadata with
  | none => (s, [])
  | some m =>
    let active :=
      match aget m.organization_id s.active_connections with
      | none => s.active_connections
      | some orgPool =>
        match aget m.user_id orgPool with
        | none => s.active_connections
        | some userPool =>
          aset m.organization_id (aset m.user_id (adel cid userPool) orgPool)
            s.active_connections
    ({ s with active_connections := active,
              connection_metadata := adel cid s.connection_metadata },
     [Event.disconnected cid])

/-- Fold `disconnect` over a list of connection ids (the clean-up loop at the
end of `broadcast_threat`). -/
def disconnectAll (s : ManagerState) : List ConnId → ManagerState × List Event
  | [] => (s, [])
  | cid :: rest =>
    let r1 := s.disconnect cid
    let r2 := disconnectAll r1.1 rest
    (r2.1, r1.2 ++ r2.2)

/-- One iteration of the inner fan-out loop of `broadcast_threat`: try to
send, then stamp `last_heartbeat` in the metadata; any exception (a failing
send, or a missing metadata entry when stamping) adds the connection id to
the `disconnected_connections` list.  Returns (state, events, failed ids). -/
def threatConnStep (now : Nat) (msg : Msg) (s : ManagerState) (c : ConnId × WS) :
    ManagerState × List Event × List ConnId :=
  if c.2.sendOk then
    match aget c.1 s.connection_metadata with
    | some m =>
      let m2 : Meta := { m with last_heartbeat := now }
      let s2 : ManagerState :=
        { s with connection_metadata := aset c.1 m2 s.connection_metadata }
      (s2, [Event.sent c.1 msg], [])
    | none => (s, [Event.sent c.1 msg], [c.1])
  else (s, [Event.sendFailed c.1], [c.1])

/-- The fan-out of `broadcast_threat` over one user's connections. -/
def threatConnLoop (now : Nat) (msg : Msg) (s : ManagerState) :
    List (ConnId × WS) → ManagerState × List Event × List ConnId
  | [] => (s, [], [])
  | c :: rest =>
    let r1 := threatConnStep now msg s c
    let r2 := threatConnLoop now msg r1.1 rest
    (r2.1, r1.2.1 ++ r2.2.1, r1.2.2 ++ r2.2.2)

/-- The fan-out of `broadcast_threat` over all users of the organization. -/
def threatUserLoop (now : Nat) (msg : Msg) (s : ManagerState) :
    List (UserId × UserPool) → ManagerState × List Event × List ConnId
  | [] => (s, [], [])
  | u :: rest =>
    let r1 := threatConnLoop now msg s u.2
    let r2 := threatUserLoop now msg r1.1 rest
    (r2.1, r1.2.1 ++ r2.2.1, r1.2.2 ++ r2.2.2)

/-- `WebSocketConnectionManager.broadcast_threat`: early return when the
organization has no pool; otherwise fan out to every connection of every
user collecting failures, then disconnect each failing connection. -/
def broadcast_threat (s : ManagerState) (threat : ThreatEvent) (now : Nat) :
    ManagerState × List Event :=
  match aget threat.organization_id s.active_connections with
  | none => (s, [])
  | some orgPool =>
    let r := threatUserLoop now (Msg.threatDetected threat) s orgPool
    let r2 := disconnectAll r.1 r.2.2
    (r2.1, r.2.1 ++ r2.2)

/-- The per-connection body of `broadcast_session_revocation`: `try` send,
sleep, close with code 1008; `except` swallows the exception; `finally`
disconnects.  A failing send skips the close; a failing close is caught; the
disconnect always runs. -/
def revokeConnLoop (msg : Msg) (s : ManagerState) :
    List (ConnId × WS) → ManagerState × List Event
  | [] => (s, [])
  | c :: rest =>
    let evs :=
      if c.2.sendOk then
        Event.sent c.1 msg ::
          (if c.2.closeOk then [Event.closed c.1 1008] else [Event.closeFailed c.1])
      else [Event.sendFailed c.1]
    let r1 := s.disconnect c.1
    let r2 := revokeConnLoop msg r1.1 rest
    (r2.1, evs ++ r1.2 ++ r2.2)

/-- `WebSocketConnectionManager.broadcast_session_revocation`: early return
when the organization has no pool or the target user has no connections;
otherwise run the revoke loop over a snapshot of the user's connections. -/
def broadcast_session_revocation (s : ManagerState) (session : SessionUpdate) :
    ManagerState × List Event :=
  match aget session.organization_id s.active_connections with
  | none => (s, [])
  | some orgPool =>
    match aget session.user_id orgPool with
    | none => (s, [])
    | some conns =>
      revokeConnLoop (Msg.sessionRevoked session.reason session.timestamp) s conns

/-- `WebSocketConnectionManager.broadcast_audit`: sends to every connection
of the organization; a failing send is only logged — the state is never
changed and no connection is disconnected. -/
def broadcast_audit (s : ManagerState) (audit : AuditEvent) :
    ManagerState × List Event :=
  match aget audit.organization_id s.active_connections with
  | none => (s, [])
  | some orgPool =>
    (s, orgPool.flatMap (fun u => u.2.map (fun c =>
      if c.2.sendOk then Event.sent c.1 (Msg.auditLog audit)
      else Event.sendFailed c.1)))

/-- `WebSocketConnectionManager.send_personal`: returns `false` when the
connection is unknown or not registered at its metadata key, catches a
failing send and returns `false`, returns `true` on success.  It never
raises and never changes the state. -/
def send_personal (s : ManagerState) (cid : ConnId) (msg : Msg) :
    Bool × List Event :=
  match aget cid s.connection_metadata with
  | none => (false, [])
  | some m =>
    match aget m.organization_id s.active_connections with
    | none => (false, [])
    | some orgPool =>
      match aget m.user_id orgPool with
      | none => (false, [])
      | some conns =>
        match aget cid conns with
        | none => (false, [])
        | some ws =>
          if ws.sendOk then (true, [Event.sent cid msg])
          else (false, [Event.sendFailed cid])

/-- One iteration of the `_heartbeat` while-loop.  The returned boolean is
whether the loop continues.  When the connection id has left
`connection_metadata` the while-condition exits the loop.  Otherwise the body
sleeps and calls `send_personal`; since `send_personal` catches every
exception internally and its boolean result is ignored, the `except` branch
of `_heartbeat` (which would disconnect and break) is unreachable for a
delivery failure, so the iteration leaves the state unchanged and the loop
continues. -/
def heartbeatStep (s : ManagerState) (cid : ConnId) (now : Nat) :
    ManagerState × List Event × Bool :=
  if (aget cid s.connection_metadata).isSome then
    let r := s.send_personal cid (Msg.heartbeat now)
    (s, r.2, true)
  else (s, [], false)

/-- `WebSocketConnectionManager._flush_queue`: early return when there is no
queue entry for the key, or the organization, or the user, is not in the
registry.  Otherwise every queued message is sent, in order, to every
connection of the key (each send in its own try/except, so a failure blocks
nothing), and the queue entry is deleted. -/
def flush_queue (s : ManagerState) (org : OrgId) (user : UserId) :
    ManagerState × List Event :=
  let key := queueKey org user
  match aget key s.message_queue with
  | none => (s, [])
  | some messages =>
    match aget org s.active_connections with
    | none => (s, [])
    | some orgPool =>
      match aget user orgPool with
      | none => (s, [])
      | some conns =>
        ({ s with message_queue := adel key s.message_queue },
         conns.flatMap (fun c => messages.map (fun m =>
           if c.2.sendOk then Event.sent c.1 m else Event.sendFailed c.1)))

/-- `WebSocketConnectionManager.connect`: accept the websocket, create the
organization and user pools when missing, register the connection, store its
metadata, flush the queued messages for the key and return `true` (the
heartbeat task is spawned separately; its iterations are `heartbeatStep`). -/
def connect (s : ManagerState) (websocket : WS) (org : OrgId) (user : UserId)
    (cid : ConnId) (now : Nat) : ManagerState × List Event × Bool :=
  let orgPool := (aget org s.active_connections).getD []
  let userPool := (aget user orgPool).getD []
  let s1 : ManagerState :=
    { s with
        active_connections :=
          aset org (aset user (aset cid websocket userPool) orgPool)
            s.active_connections,
        connection_metadata :=
          aset cid { organization_id := org, user_id := user,
                     connected_at := now, last_heartbeat := now }
            s.connection_metadata }
  let r := s1.flush_queue org user
  (r.1, r.2, true)

/-- `WebSocketConnectionManager.queue_message`: creates the key when absent
and appends the message only when the current queue holds fewer than 1000
entries; beyond the cap the queue is left as it is. -/
def queue_message (s : ManagerState) (org : OrgId) (user : UserId) (message : Msg) :
    ManagerState :=
  let key := queueKey org user
  let q := (aget key s.message_queue).getD []
  if q.length < 1000 then
    { s with message_queue := aset key (q ++ [message]) s.message_queue }
  else
    { s with message_queue := aset key q s.message_queue }

/-- `WebSocketConnectionManager.get_connection_count`. -/
def get_connection_count (s : ManagerState) (org : OrgId) : Nat :=
  match aget org s.active_connections with
  | none => 0
  | some orgPool => (orgPool.map (fun u => u.2.length)).sum

/-- `WebSocketConnectionManager.get_user_connection_count`. -/
def get_user_connection_count (s : ManagerState) (org : OrgId) (user : UserId) : Nat :=
  match aget org s.active_connections with
  | none => 0
  | some orgPool =>
    match aget user orgPool with
    | none => 0
    | some conns => conns.length

/-- The connection id is registered somewhere under the organization. -/
def registeredUnder (s : ManagerState) (org : OrgId) (cid : ConnId) : Bool :=
  match aget org s.active_connections with
  | none => false
  | some orgPool => orgPool.any (fun u => (aget cid u.2).isSome)

/-- Well-formed manager state: dict keys are distinct at every level and the
metadata of every registered connection points back at the (organization,
user) key it is registered under — the invariant `connect` establishes and
`disconnect` maintains. -/
def WF (s : ManagerState) : Prop :=
  keysNodup s.active_connections ∧
  keysNodup s.connection_metadata ∧
  (∀ p ∈ s.active_connections, keysNodup p.2 ∧
    ∀ q ∈ p.2, keysNodup q.2 ∧
      ∀ c ∈ q.2,
        (aget c.1 s.connection_metadata).map
            (fun m => (m.organization_id, m.user_id)) = some (p.1, q.1))

instance (s : ManagerState) : Decidable (WF s) := by
  unfold WF keysNodup
  infer_instance

/-- The connection id is registered somewhere in the registry. -/
def connRegistered (s : ManagerState) (cid : ConnId) : Bool :=
  s.active_connections.any (fun p => p.2.any (fun q => (aget cid q.2).isSome))

/-- The pool of connections registered for the (organization, user) key. -/
def userPoolAt (s : ManagerState) (org : OrgId) (user : UserId) : Option UserPool :=
  (aget org s.active_connections).bind (fun orgPool => aget user orgPool)

/-- The observable actions `broadcast_session_revocation` performs on one
target connection: the send when it succeeds (followed by the close attempt),
the failed send otherwise, and in every case the registry disconnect last. -/
def revokeEventsFor (msg : Msg) (c : ConnId × WS) : List Event :=
  (if c.2.sendOk then
    Event.sent c.1 msg ::
      (if c.2.closeOk then [Event.closed c.1 1008] else [Event.closeFailed c.1])
  else [Event.sendFailed c.1]) ++ [Event.disconnected c.1]

/-- The fan-out part of the `broadcast_threat` trace over an organization
pool: one send or failed send per registered connection. -/
def threatFanoutEvents (msg : Msg) (orgPool : OrgPool) : List Event :=
  orgPool.flatMap (fun u => u.2.map (fun c =>
    if c.2.sendOk then Event.sent c.1 msg else Event.sendFailed c.1))

/-- The connection ids `broadcast_threat` collects for clean-up: those whose
send fails. -/
def threatFailed (orgPool : OrgPool) : List ConnId :=
  orgPool.flatMap (fun u => (u.2.filter (fun c => !c.2.sendOk)).map Prod.fst)

/-- All connection ids registered under an organization pool. -/
def orgConnIds (orgPool : OrgPool) : List ConnId :=
  orgPool.flatMap (fun u => u.2.map Prod.fst)

/-- A message queue in which no key holds more than 1000 entries. -/
def QueueBounded (s : ManagerState) : Prop :=
  ∀ k q, aget k s.message_queue = some q → q.length ≤ 1000

/-- Replay a sequence of `queue_message` calls. -/
def applyQueueCalls (s : ManagerState) : List (OrgId × UserId × Msg) → ManagerState
  | [] => s
  | c :: rest => applyQueueCalls (s.queue_message c.1 c.2.1 c.2.2) rest

end ManagerState

/-! ### Concrete states used as witnesses and counterexamples -/

/-- One organization `"o"`, one user `"u"`, one registered connection `"c"`
whose transport fails every send. -/
def failSendState : ManagerState :=
  { active_connections := [("o", [("u", [("c", { sendOk := false, closeOk := true })])])],
    connection_metadata :=
      [("c", { organization_id := "o", user_id := "u", connected_at := 0,
               last_heartbeat := 0 })],
    message_queue := [] }

/-- An empty registry with two messages queued for (o, u). -/
def queuedState : ManagerState :=
  { active_connections := [], connection_metadata := [],
    message_queue := [("o:u", [Msg.raw "m1", Msg.raw "m2"])] }

/-- A session revocation targeting user `"u"` of organization `"o"`. -/
def revokeU : SessionUpdate :=
  { user_id := "u", organization_id := "o", reason := "api_key_deactivated",
    timestamp := 7 }

/-- An audit event in organization `"o"`. -/
def auditO : AuditEvent :=
  { event_type := "role_change", resource_type := "user", user_id := some "u",
    organization_id := "o", timestamp := 7, details := [("k", "v")] }

/-- A threat event in organization `"o"`. -/
def threatO : ThreatEvent :=
  { id := "t1", organization_id := "o", timestamp := 7, source_ip := "1.2.3.4",
    destination_ip := "5.6.7.8", severity := "high", risk_score := mkRat 9 10,
    action := "login", resource := "/admin", user_agent := "curl",
    is_blocked := false, ai_flagged := true }

/-- A feedback item: unprocessed analyst correction. -/
def fbItem (idStr : String) (orig corr : String) (proc : Bool) : FeedbackItem :=
  { threat_log_id := idStr, original_classification := orig,
    corrected_classification := corr, confidence_score := mkRat 9 10,
    reason := "fp", analyst_id := "an1", created_at := 3,
    is_processed := proc, processed_at := none }

/-- Four feedback items, three of them corrections. -/
def fourItemBuffer : FeedbackBuffer :=
  { retraining_threshold := 100,
    buffer := [fbItem "a" "threat" "normal" false, fbItem "b" "normal" "anomaly" false,
               fbItem "c" "normal" "normal" false, fbItem "d" "threat" "anomaly" true] }

/-- A buffer whose single item is already processed. -/
def processedBuffer : FeedbackBuffer :=
  { retraining_threshold := 100,
    buffer := [fbItem "a" "threat" "normal" true] }

/-- An orchestrator at its retraining threshold: threshold 2, two distinct
unprocessed items. -/
def readyOrchestrator : Orchestrator :=
  { feedback_buffer :=
      { retraining_threshold := 2,
        buffer := [fbItem "a" "threat" "normal" false,
                   fbItem "b" "normal" "threat" false] },
    retraining_jobs := [] }

/-! ### Association-list lemmas -/

section AssocLemmas

variable [DecidableEq α] {k j : α} {v : β} {l : List (α × β)} {p : α × β}

theorem aget_aset_self (k : α) (v : β) (l : List (α × β)) :
    aget k (aset k v l) = some v := by
  induction l with
  | nil => simp [aget, aset]
  | cons q t ih =>
    by_cases h : q.1 = k
    · simp [aset, h, aget]
    · simp [aset, h, aget, ih]

theorem aget_aset_ne (h : j ≠ k) (v : β) (l : List (α × β)) :
    aget j (aset k v l) = aget j l := by
  have hkj : ¬ k = j := fun hh => h hh.symm
  induction l with
  | nil => simp [aget, aset, hkj]
  | cons q t ih =>
    by_cases hq : q.1 = k
    · simp [aset, hq, aget, hkj]
    · simp [aset, hq, aget, ih]

theorem aget_adel_ne (h : j ≠ k) (l : List (α × β)) :
    aget j (adel k l) = aget j l := by
  have hkj : ¬ k = j := fun hh => h hh.symm
  induction l with
  | nil => rfl
  | cons q t ih =>
    by_cases hq : q.1 = k
    · simp [adel, hq, aget, hkj]
    · simp [adel, hq, aget, ih]

theorem aget_eq_none_of_not_mem_keys (h : k ∉ l.map Prod.fst) :
    aget k l = none := by
  induction l with
  | nil => rfl
  | cons q t ih =>
    simp only [List.map_cons, List.mem_cons, not_or] at h
    have hq : ¬ q.1 = k := fun hh => h.1 hh.symm
    simp [aget, hq, ih h.2]

theorem aget_mem (h : aget k l = some v) : (k, v) ∈ l := by
  induction l with
  | nil => simp [aget] at h
  | cons q t ih =>
    by_cases hq : q.1 = k
    · simp only [aget, hq, if_pos] at h
      cases h
      have hqe : (k, q.2) = q := by rw [← hq]
      rw [hqe]
      exact List.mem_cons_self q t
    · simp only [aget, hq, if_neg, not_false_iff] at h
      exact List.mem_cons_of_mem _ (ih h)

theorem aget_isSome_of_mem (h : p ∈ l) : (aget p.1 l).isSome := by
  induction l with
  | nil => simp at h
  | cons q t ih =>
    rcases List.mem_cons.mp h with h | h
    · subst h; simp [aget]
    · by_cases hq : q.1 = p.1 <;> simp [aget, hq, ih h]

theorem aget_adel_self_of_nodup (hl : keysNodup l) :
    aget k (adel k l) = none := by
  induction l with
  | nil => rfl
  | cons q t ih =>
    have hn := (List.nodup_cons.mp hl).1
    have ht := (List.nodup_cons.mp hl).2
    by_cases hq : q.1 = k
    · simp only [adel, hq, if_pos]
      exact aget_eq_none_of_not_mem_keys (hq ▸ hn)
    · simp [adel, hq, aget, ih ht]

theorem mem_aset (h : p ∈ aset k v l) : p = (k, v) ∨ p ∈ l := by
  induction l with
  | nil => simp [aset] at h; simp [h]
  | cons q t ih =>
    by_cases hq : q.1 = k
    · simp only [aset, hq, if_pos] at h
      rcases List.mem_cons.mp h with h | h
      · exact Or.inl h
      · exact Or.inr (List.mem_cons_of_mem _ h)
    · simp only [aset, hq, if_neg, not_false_iff] at h
      rcases List.mem_cons.mp h with h | h
      · exact Or.inr (h ▸ List.mem_cons_self _ _)
      · rcases ih h with h | h
        · exact Or.inl h
        · exact Or.inr (List.mem_cons_of_mem _ h)

theorem mem_aset_nodup (hl : keysNodup l) (h : p ∈ aset k v l) :
    p = (k, v) ∨ (p ∈ l ∧ p.1 ≠ k) := by
  induction l with
  | nil => simp [aset] at h; simp [h]
  | cons q t ih =>
    have hn := (List.nodup_cons.mp hl).1
    have ht := (List.nodup_cons.mp hl).2
    by_cases hq : q.1 = k
    · simp only [aset, hq, if_pos] at h
      rcases List.mem_cons.mp h with h | h
      · exact Or.inl h
      · right
        refine ⟨List.mem_cons_of_mem _ h, ?_⟩
        intro hpk
        exact (hq ▸ hn) (hpk ▸ List.mem_map_of_mem Prod.fst h)
    · simp only [aset, hq, if_neg, not_false_iff] at h
      rcases List.mem_cons.mp h with h | h
      · exact Or.inr ⟨h ▸ List.mem_cons_self _ _, h ▸ hq⟩
      · rcases ih ht h with h | h
        · exact Or.inl h
        · exact Or.inr ⟨List.mem_cons_of_mem _ h.1, h.2⟩

theorem mem_adel (h : p ∈ adel k l) : p ∈ l := by
  induction l with
  | nil => simp [adel] at h
  | cons q t ih =>
    by_cases hq : q.1 = k
    · simp only [adel, hq, if_pos] at h
      exact List.mem_cons_of_mem _ h
    · simp only [adel, hq, if_neg, not_false_iff] at h
      rcases List.mem_cons.mp h with h | h
      · exact h ▸ List.mem_cons_self _ _
      · exact List.mem_cons_of_mem _ (ih h)

theorem mem_adel_nodup (hl : keysNodup l) (h : p ∈ adel k l) :
    p ∈ l ∧ p.1 ≠ k := by
  induction l with
  | nil => simp [adel] at h
  | cons q t ih =>
    have hn := (List.nodup_cons.mp hl).1
    have ht := (List.nodup_cons.mp hl).2
    by_cases hq : q.1 = k
    · simp only [adel, hq, if_pos] at h
      refine ⟨List.mem_cons_of_mem _ h, ?_⟩
      intro hpk
      exact (hq ▸ hn) (hpk ▸ List.mem_map_of_mem Prod.fst h)
    · simp only [adel, hq, if_neg, not_false_iff] at h
      rcases List.mem_cons.mp h with h | h
      · exact ⟨h ▸ List.mem_cons_self _ _, h ▸ hq⟩
      · exact ⟨List.mem_cons_of_mem _ (ih ht h).1, (ih ht h).2⟩

theorem keys_aset_present (h : (aget k l).isSome) :
    (aset k v l).map Prod.fst = l.map Prod.fst := by
  induction l with
  | nil => simp [aget] at h
  | cons q t ih =>
    by_cases hq : q.1 = k
    · simp [aset, hq]
    · simp only [aget, hq, if_neg, not_false_iff] at h
      simp [aset, hq, ih h]

theorem aset_absent (h : aget k l = none) :
    aset k v l = l ++ [(k, v)] := by
  induction l with
  | nil => rfl
  | cons q t ih =>
    by_cases hq : q.1 = k
    · simp [aget, hq] at h
    · simp only [aget, hq, if_neg, not_false_iff] at h
      simp [aset, hq, ih h]

theorem keysNodup_aset (hl : keysNodup l) : keysNodup (aset k v l) := by
  by_cases h : (aget k l).isSome
  · unfold keysNodup
    rw [keys_aset_present h]
    exact hl
  · rw [Option.not_isSome_iff_eq_none] at h
    rw [aset_absent h]
    unfold keysNodup at hl ⊢
    rw [List.map_append]
    refine List.Nodup.append hl (by simp) ?_
    intro x hx hy
    simp only [List.map_cons, List.map_nil, List.mem_singleton] at hy
    subst hy
    rcases List.mem_map.mp hx with ⟨p, hp, hpk⟩
    have hs := aget_isSome_of_mem hp
    rw [hpk] at hs
    simp [h] at hs

theorem keys_adel_sublist : ((adel k l).map Prod.fst).Sublist (l.map Prod.fst) := by
  induction l with
  | nil => simp [adel]
  | cons q t ih =>
    by_cases hq : q.1 = k
    · simp only [adel, hq, if_pos, List.map_cons]
      exact List.sublist_cons_self _ _
    · simp only [adel, hq, if_neg, not_false_iff, List.map_cons]
      exact ih.cons₂ _

theorem keysNodup_adel (hl : keysNodup l) : keysNodup (adel k l) :=
  List.Nodup.sublist keys_adel_sublist hl

theorem aget_of_mem_nodup (hl : keysNodup l) (h : p ∈ l) : aget p.1 l = some p.2 := by
  induction l with
  | nil => simp at h
  | cons q t ih =>
    have hn := (List.nodup_cons.mp hl).1
    have ht := (List.nodup_cons.mp hl).2
    rcases List.mem_cons.mp h with h | h
    · subst h
      simp [aget]
    · have hq : ¬ q.1 = p.1 := by
        intro he
        exact hn (he ▸ List.mem_map_of_mem Prod.fst h)
      simp [aget, hq, ih ht h]

end AssocLemmas

/-! ### WebSocket registry lemmas -/

open ManagerState

/-- Boolean registration unfolded to an existential. -/
theorem connRegistered_iff {s : ManagerState} {x : ConnId} :
    connRegistered s x = true ↔
      ∃ p ∈ s.active_connections, ∃ q ∈ p.2, (aget x q.2).isSome := by
  simp [connRegistered, List.any_eq_true]

/-- Per-organization registration unfolded to an existential. -/
theorem registeredUnder_iff {s : ManagerState} {org : OrgId} {cid : ConnId} :
    registeredUnder s org cid = true ↔
      ∃ OP, aget org s.active_connections = some OP ∧
        ∃ u ∈ OP, (aget cid u.2).isSome := by
  unfold registeredUnder
  cases h : aget org s.active_connections with
  | none => simp
  | some OP => simp [List.any_eq_true]

/-- WF, named accessors: the nested key sets are duplicate-free. -/
theorem ManagerState.WF.active_nodup {s : ManagerState} (h : WF s) : keysNodup s.active_connections :=
  h.1

theorem ManagerState.WF.meta_nodup {s : ManagerState} (h : WF s) : keysNodup s.connection_metadata :=
  h.2.1

theorem ManagerState.WF.orgPool_nodup {s : ManagerState} (h : WF s) {org : OrgId} {OP : OrgPool}
    (hOP : aget org s.active_connections = some OP) : keysNodup OP :=
  (h.2.2 _ (aget_mem hOP)).1

theorem ManagerState.WF.userPool_nodup {s : ManagerState} (h : WF s) {org : OrgId} {OP : OrgPool}
    {user : UserId} {UP : UserPool} (hOP : aget org s.active_connections = some OP)
    (hUP : aget user OP = some UP) : keysNodup UP :=
  (((h.2.2 _ (aget_mem hOP)).2 _ (aget_mem hUP))).1

/-- WF: the metadata of any registry occurrence points back at its key. -/
theorem ManagerState.WF.meta_of_occurrence {s : ManagerState} (h : WF s) {p : OrgId × OrgPool}
    {q : UserId × UserPool} {c : ConnId × WS}
    (hp : p ∈ s.active_connections) (hq : q ∈ p.2) (hc : c ∈ q.2) :
    (aget c.1 s.connection_metadata).map
      (fun m => (m.organization_id, m.user_id)) = some (p.1, q.1) :=
  ((h.2.2 _ hp).2 _ hq).2 _ hc

/-- WF: the metadata of a connection found through `aget` lookups. -/
theorem ManagerState.WF.meta_of_pool {s : ManagerState} (h : WF s) {org : OrgId} {OP : OrgPool}
    {user : UserId} {UP : UserPool} {c : ConnId × WS}
    (hOP : aget org s.active_connections = some OP)
    (hUP : aget user OP = some UP) (hc : c ∈ UP) :
    (aget c.1 s.connection_metadata).map
      (fun m => (m.organization_id, m.user_id)) = some (org, user) :=
  h.meta_of_occurrence (aget_mem hOP) (aget_mem hUP) hc

/-- Under WF, a connection registered somewhere under an organization has
metadata naming that organization. -/
theorem ManagerState.WF.meta_org_of_registeredUnder {s : ManagerState} (h : WF s) {org : OrgId}
    {cid : ConnId} (hr : registeredUnder s org cid = true) :
    ∃ m, aget cid s.connection_metadata = some m ∧ m.organization_id = org := by
  rcases registeredUnder_iff.mp hr with ⟨OP, hOP, u, hu, hx⟩
  rcases Option.isSome_iff_exists.mp hx with ⟨ws, hws⟩
  have := h.meta_of_occurrence (aget_mem hOP) hu (aget_mem hws)
  rcases hm : aget cid s.connection_metadata with _ | m
  · rw [hm] at this
    simp at this
  · rw [hm] at this
    simp only [Option.map_some] at this
    injection this with hpair
    exact ⟨m, rfl, (Prod.mk.injEq _ _ _ _ |>.mp hpair).1⟩


/-! ### Feedback-loop lemmas and claims -/

/-- Evaluation of the four-item example: three of four items are corrections,
and `round(0.75, 4)` is `0.75`. -/
theorem fourItemBuffer_rate :
    (FeedbackBuffer.get_feedback_statistics fourItemBuffer).correction_rate = 3/4 := by
  have hfloor : ((3 : ℚ)/4 * 10000 + 1/2).floor = 7500 := by
    show ⌊(3 : ℚ)/4 * 10000 + 1/2⌋ = 7500
    rw [Int.floor_eq_iff]
    norm_num
  have hrate : FeedbackBuffer.round4 ((3 : ℚ)/4) = 3/4 := by
    unfold FeedbackBuffer.round4
    rw [hfloor]
    norm_num
  have hbuf : (FeedbackBuffer.get_feedback_statistics fourItemBuffer).correction_rate =
      FeedbackBuffer.round4 ((3 : ℚ)/4) := by
    show FeedbackBuffer.round4
        (((fourItemBuffer.buffer.filter (fun it =>
            it.original_classification ≠ it.corrected_classification)).length : ℚ) /
          (fourItemBuffer.buffer.length : ℚ)) = FeedbackBuffer.round4 ((3 : ℚ)/4)
    have h3 : (fourItemBuffer.buffer.filter (fun it =>
        it.original_classification ≠ it.corrected_classification)).length = 3 := by decide
    have h4 : fourItemBuffer.buffer.length = 4 := by decide
    rw [h3, h4]
    norm_num
  rw [hbuf, hrate]

/-- C2 (status: code_bug). The spec says a failed heartbeat delivery
immediately disconnects the connection and terminates the loop.  In the code,
`send_personal` catches the send exception internally and returns `False`,
`_heartbeat` ignores that return value, and the `except` branch of
`_heartbeat` that would disconnect and `break` is never reached: at the
failing input the iteration reports the failed send, leaves the connection
registered, leaves the whole state unchanged and continues the loop. -/
theorem claim_C2_heartbeat_failure_not_terminal :
    ManagerState.heartbeatStep failSendState "c" 30 =
      (failSendState, [Event.sendFailed "c"], true) ∧
    ManagerState.get_user_connection_count
      (ManagerState.heartbeatStep failSendState "c" 30).1 "o" "u" = 1 ∧
    (aget "c" (ManagerState.heartbeatStep failSendState "c" 30).1.connection_metadata).isSome
      = true := by
  refine ⟨by decide, by decide, by decide⟩

/-- C7 counterexample. The claim says ids of already-processed items
contribute nothing to the returned count; in the code the counter is
incremented for every matching item regardless of its previous
`is_processed` value, so a buffer whose only item (id "a") is already
processed still yields count 1 for `mark_as_processed(["a"])`. -/
theorem claim_C7_counterexample :
    processedBuffer.buffer.all (fun it => it.is_processed) = true ∧
    (FeedbackBuffer.mark_as_processed processedBuffer ["a"] 5).2 = 1 := by
  refine ⟨by decide, by decide⟩

/-- C7 (amended): `mark_as_processed(ids)` sets `is_processed` and stamps
`processed_at` on every buffer item whose id is in `ids`, leaves other items
unchanged, and returns the number of matching items — already-processed
matching items are restamped and counted; unknown ids contribute nothing and
cause no error (ids matching no item leave the buffer unchanged with count
0). -/
theorem claim_C7_mark_as_processed (fb : FeedbackBuffer) (ids : List String) (now : Nat) :
    (fb.mark_as_processed ids now).1.retraining_threshold = fb.retraining_threshold ∧
    (fb.mark_as_processed ids now).2 =
      fb.buffer.countP (fun it => it.threat_log_id ∈ ids) ∧
    (∀ i : Nat, (fb.mark_as_processed ids now).1.buffer[i]? =
      (fb.buffer[i]?).map (fun it =>
        if it.threat_log_id ∈ ids then
          { it with is_processed := true, processed_at := some now }
        else it)) ∧
    ((∀ it ∈ fb.buffer, it.threat_log_id ∉ ids) →
      (fb.mark_as_processed ids now).1 = fb ∧ (fb.mark_as_processed ids now).2 = 0) := by
  refine ⟨rfl, ?_, ?_, ?_⟩
  · simp [FeedbackBuffer.mark_as_processed, List.countP_eq_length_filter]
  · intro i
    simp [FeedbackBuffer.mark_as_processed]
  · intro h
    constructor
    · show FeedbackBuffer.mk _ _ = fb
      have hmap : fb.buffer.map (fun it =>
          if it.threat_log_id ∈ ids then
            { it with is_processed := true, processed_at := some now }
          else it) = fb.buffer := by
        have h2 : ∀ a ∈ fb.buffer, (fun it =>
            if it.threat_log_id ∈ ids then
              { it with is_processed := true, processed_at := some now }
            else it) a = id a := fun a ha => by simp [h a ha]
        rw [List.map_congr_left h2, List.map_id]
      simp [FeedbackBuffer.mark_as_processed, hmap]
    · have hfil : fb.buffer.filter (fun it => it.threat_log_id ∈ ids) = [] := by
        rw [List.filter_eq_nil_iff]
        intro a ha
        simp [h a ha]
      simp [FeedbackBuffer.mark_as_processed, hfil]

/-- C7 witness: unknown id "z" is a no-op with count 0. -/
theorem claim_C7_witness :
    (FeedbackBuffer.mark_as_processed processedBuffer ["z"] 5).1 = processedBuffer ∧
    (FeedbackBuffer.mark_as_processed processedBuffer ["z"] 5).2 = 0 :=
  (claim_C7_mark_as_processed processedBuffer ["z"] 5).2.2.2 (by decide)

/-- C6 counterexample. The claim says `feedback_until_retrain` equals
`max(0, threshold - unprocessed)` including for the empty buffer; the
empty-buffer branch of the source returns a dict without that key at all. -/
theorem claim_C6_counterexample :
    (FeedbackBuffer.get_feedback_statistics
        { retraining_threshold := 100, buffer := [] }).feedback_until_retrain ≠
      some (max 0 (100 - 0)) := by
  decide

/-- C6 (amended): for a nonempty buffer the statistics report the
total/processed/unprocessed counts, a correction rate equal to
(items with corrected ≠ original) / total rounded to four decimal places,
and `feedback_until_retrain = max(0, threshold - unprocessed)`; the empty
buffer reports zero counts and correction rate 0.0 but omits the
`feedback_until_retrain` field; the four-item buffer with three corrections
reports rate 0.75. -/
theorem claim_C6_statistics (fb : FeedbackBuffer) (h : fb.buffer ≠ []) :
    (fb.get_feedback_statistics).total_feedback = fb.buffer.length ∧
    (fb.get_feedback_statistics).processed =
      (fb.buffer.filter (fun it => it.is_processed)).length ∧
    (fb.get_feedback_statistics).unprocessed =
      fb.buffer.length - (fb.buffer.filter (fun it => it.is_processed)).length ∧
    (fb.get_feedback_statistics).correction_rate =
      FeedbackBuffer.round4
        ((((fb.buffer.filter (fun it =>
            it.original_classification ≠ it.corrected_classification)).length : ℚ)) /
          (fb.buffer.length : ℚ)) ∧
    (fb.get_feedback_statistics).feedback_until_retrain =
      some (Int.toNat (max 0 ((fb.retraining_threshold : ℤ) -
        ((fb.buffer.length -
          (fb.buffer.filter (fun it => it.is_processed)).length : ℕ) : ℤ)))) ∧
    (∀ t, FeedbackBuffer.get_feedback_statistics { retraining_threshold := t, buffer := [] } =
      { total_feedback := 0, processed := 0, unprocessed := 0,
        correction_rate := 0, feedback_until_retrain := none }) ∧
    (FeedbackBuffer.get_feedback_statistics fourItemBuffer).correction_rate = 3/4 := by
  refine ⟨?_, ?_, ?_, ?_, ?_, ?_, fourItemBuffer_rate⟩
  · simp [FeedbackBuffer.get_feedback_statistics, h]
  · simp [FeedbackBuffer.get_feedback_statistics, h]
  · simp [FeedbackBuffer.get_feedback_statistics, h]
  · simp [FeedbackBuffer.get_feedback_statistics, h]
  · simp [FeedbackBuffer.get_feedback_statistics, h]
    have hle : (fb.buffer.filter (fun it => it.is_processed)).length ≤ fb.buffer.length :=
      List.length_filter_le _ _
    omega
  · intro t
    rfl

/-- C6 witness: the four-item buffer instantiates the nonempty case. -/
theorem claim_C6_witness :
    (FeedbackBuffer.get_feedback_statistics fourItemBuffer).feedback_until_retrain =
      some (Int.toNat (max 0 ((fourItemBuffer.retraining_threshold : ℤ) -
        ((fourItemBuffer.buffer.length -
          (fourItemBuffer.buffer.filter (fun it => it.is_processed)).length : ℕ) : ℤ)))) :=
  (claim_C6_statistics fourItemBuffer (by simp [fourItemBuffer])).2.2.2.2.1

/-- Under WF, an occurrence of a connection in the registry pins down its
metadata key. -/
theorem ManagerState.WF.occurrence_key {s : ManagerState} (hWF : WF s)
    {p : OrgId × OrgPool} {q : UserId × UserPool} {c : ConnId × WS} {m : Meta}
    (hp : p ∈ s.active_connections) (hq : q ∈ p.2) (hc : c ∈ q.2)
    (hm : aget c.1 s.connection_metadata = some m) :
    p.1 = m.organization_id ∧ q.1 = m.user_id := by
  have h := hWF.meta_of_occurrence hp hq hc
  rw [hm] at h
  injection h with hpair
  have h1 := Prod.ext_iff.mp hpair
  exact ⟨h1.1.symm, h1.2.symm⟩

/-- `disconnect` with no metadata entry is the identity. -/
theorem disconnect_absent (s : ManagerState) (cid : ConnId)
    (hm : aget cid s.connection_metadata = none) :
    s.disconnect cid = (s, []) := by
  simp only [ManagerState.disconnect, hm]

/-- `disconnect` of a known connection emits exactly its disconnect event. -/
theorem disconnect_events (s : ManagerState) (cid : ConnId) (m : Meta)
    (hm : aget cid s.connection_metadata = some m) :
    (s.disconnect cid).2 = [Event.disconnected cid] := by
  simp only [ManagerState.disconnect, hm]

/-- `disconnect` of a known connection deletes exactly its metadata entry. -/
theorem disconnect_meta (s : ManagerState) (cid : ConnId) (m : Meta)
    (hm : aget cid s.connection_metadata = some m) :
    (s.disconnect cid).1.connection_metadata = adel cid s.connection_metadata := by
  simp only [ManagerState.disconnect, hm]

/-- `disconnect` never touches the message queue. -/
theorem disconnect_queue (s : ManagerState) (cid : ConnId) :
    (s.disconnect cid).1.message_queue = s.message_queue := by
  rcases hm : aget cid s.connection_metadata with _ | m
  · simp only [ManagerState.disconnect, hm]
  · simp only [ManagerState.disconnect, hm]

/-- After `disconnect`, the connection has no metadata. -/
theorem disconnect_meta_none (s : ManagerState) (cid : ConnId)
    (hnd : keysNodup s.connection_metadata) :
    aget cid (s.disconnect cid).1.connection_metadata = none := by
  rcases hm : aget cid s.connection_metadata with _ | m
  · simp only [ManagerState.disconnect, hm]
  · rw [disconnect_meta s cid m hm]
    exact aget_adel_self_of_nodup hnd

/-- `disconnect` leaves the metadata of every other connection unchanged. -/
theorem disconnect_meta_ne (s : ManagerState) (cid c : ConnId) (hne : c ≠ cid) :
    aget c (s.disconnect cid).1.connection_metadata = aget c s.connection_metadata := by
  rcases hm : aget cid s.connection_metadata with _ | m
  · simp only [ManagerState.disconnect, hm]
  · rw [disconnect_meta s cid m hm]
    exact aget_adel_ne hne _

/-- Absent metadata stays absent across a `disconnect`. -/
theorem disconnect_meta_none_mono (s : ManagerState) (cid c : ConnId)
    (hmn : aget c s.connection_metadata = none) :
    aget c (s.disconnect cid).1.connection_metadata = none := by
  by_cases hne : c = cid
  · subst hne
    rcases hm : aget c s.connection_metadata with _ | m
    · simp only [ManagerState.disconnect, hm]
    · rw [hmn] at hm
      cases hm
  · rw [disconnect_meta_ne s cid c hne]
    exact hmn

/-- `disconnect` leaves the pools of every other organization unchanged. -/
theorem disconnect_active_ne (s : ManagerState) (cid : ConnId) (m : Meta)
    (hm : aget cid s.connection_metadata = some m) (o : OrgId)
    (ho : o ≠ m.organization_id) :
    aget o (s.disconnect cid).1.active_connections = aget o s.active_connections := by
  rcases hOP : aget m.organization_id s.active_connections with _ | OP
  · simp only [ManagerState.disconnect, hm, hOP]
  · rcases hUP : aget m.user_id OP with _ | UP
    · simp only [ManagerState.disconnect, hm, hOP, hUP]
    · simp only [ManagerState.disconnect, hm, hOP, hUP]
      exact aget_aset_ne ho _ _

/-- The registry update `disconnect` performs when the connection is present
at its metadata key. -/
theorem disconnect_active_eq (s : ManagerState) (cid : ConnId) (m : Meta)
    {OP : OrgPool} {UP : UserPool}
    (hm : aget cid s.connection_metadata = some m)
    (hOP : aget m.organization_id s.active_connections = some OP)
    (hUP : aget m.user_id OP = some UP) :
    (s.disconnect cid).1.active_connections =
      aset m.organization_id (aset m.user_id (adel cid UP) OP) s.active_connections := by
  simp only [ManagerState.disconnect, hm, hOP, hUP]

/-- Registration is monotone along `disconnect`: a connection registered
afterwards was registered before. -/
theorem connRegistered_disconnect_mono (s : ManagerState) (cid x : ConnId)
    (h : connRegistered (s.disconnect cid).1 x = true) : connRegistered s x = true := by
  rcases hm : aget cid s.connection_metadata with _ | m
  · rw [disconnect_absent s cid hm] at h
    exact h
  · rcases hOP : aget m.organization_id s.active_connections with _ | OP
    · simp only [ManagerState.disconnect, hm, hOP] at h
      exact h
    · rcases hUP : aget m.user_id OP with _ | UP
      · simp only [ManagerState.disconnect, hm, hOP, hUP] at h
        exact h
      · rw [connRegistered_iff] at h ⊢
        rw [disconnect_active_eq s cid m hm hOP hUP] at h
        obtain ⟨p, hp, q, hq, hx⟩ := h
        rcases mem_aset hp with rfl | hp
        · rcases mem_aset hq with rfl | hq
          · rcases Option.isSome_iff_exists.mp hx with ⟨ws, hws⟩
            have hmem := mem_adel (aget_mem hws)
            exact ⟨(m.organization_id, OP), aget_mem hOP, (m.user_id, UP),
              aget_mem hUP, aget_isSome_of_mem hmem⟩
          · exact ⟨(m.organization_id, OP), aget_mem hOP, q, hq, hx⟩
        · exact ⟨p, hp, q, hq, hx⟩

/-- `disconnect` preserves well-formedness. -/
theorem disconnect_WF (s : ManagerState) (cid : ConnId) (hWF : WF s) :
    WF (s.disconnect cid).1 := by
  rcases hm : aget cid s.connection_metadata with _ | m
  · rw [disconnect_absent s cid hm]
    exact hWF
  · have hpin : ∀ p ∈ s.active_connections, ∀ q ∈ p.2, ∀ c ∈ q.2,
        c.1 = cid → p.1 = m.organization_id ∧ q.1 = m.user_id := by
      intro p hp q hq c hc he
      have hcm : aget c.1 s.connection_metadata = some m := by rw [he]; exact hm
      exact hWF.occurrence_key hp hq hc hcm
    have hmet := disconnect_meta s cid m hm
    rcases hOP : aget m.organization_id s.active_connections with _ | OP
    · have hact : (s.disconnect cid).1.active_connections = s.active_connections := by
        simp only [ManagerState.disconnect, hm, hOP]
      have hnocc : ∀ p ∈ s.active_connections, ∀ q ∈ p.2, ∀ c ∈ q.2, c.1 ≠ cid := by
        intro p hp q hq c hc he
        have hk := hpin p hp q hq c hc he
        have hps := aget_isSome_of_mem hp
        rw [hk.1, hOP] at hps
        simp at hps
      refine ⟨?_, ?_, ?_⟩
      · rw [hact]; exact hWF.1
      · rw [hmet]; exact keysNodup_adel hWF.2.1
      · rw [hact, hmet]
        intro p hp
        refine ⟨(hWF.2.2 p hp).1, ?_⟩
        intro q hq
        refine ⟨((hWF.2.2 p hp).2 q hq).1, ?_⟩
        intro c hc
        rw [aget_adel_ne (hnocc p hp q hq c hc)]
        exact ((hWF.2.2 p hp).2 q hq).2 c hc
    · rcases hUP : aget m.user_id OP with _ | UP
      · have hact : (s.disconnect cid).1.active_connections = s.active_connections := by
          simp only [ManagerState.disconnect, hm, hOP, hUP]
        have hnocc : ∀ p ∈ s.active_connections, ∀ q ∈ p.2, ∀ c ∈ q.2, c.1 ≠ cid := by
          intro p hp q hq c hc he
          have hk := hpin p hp q hq c hc he
          have hp2 : aget p.1 s.active_connections = some p.2 :=
            aget_of_mem_nodup hWF.1 hp
          rw [hk.1, hOP] at hp2
          injection hp2 with hp2
          have hqs := aget_isSome_of_mem hq
          rw [hk.2, ← hp2, hUP] at hqs
          simp at hqs
        refine ⟨?_, ?_, ?_⟩
        · rw [hact]; exact hWF.1
        · rw [hmet]; exact keysNodup_adel hWF.2.1
        · rw [hact, hmet]
          intro p hp
          refine ⟨(hWF.2.2 p hp).1, ?_⟩
          intro q hq
          refine ⟨((hWF.2.2 p hp).2 q hq).1, ?_⟩
          intro c hc
          rw [aget_adel_ne (hnocc p hp q hq c hc)]
          exact ((hWF.2.2 p hp).2 q hq).2 c hc
      · have hact := disconnect_active_eq s cid m hm hOP hUP
        have hOPmem : (m.organization_id, OP) ∈ s.active_connections := aget_mem hOP
        have hOPnodup : keysNodup OP := hWF.orgPool_nodup hOP
        have hUPnodup : keysNodup UP := hWF.userPool_nodup hOP hUP
        refine ⟨?_, ?_, ?_⟩
        · rw [hact]; exact keysNodup_aset hWF.1
        · rw [hmet]; exact keysNodup_adel hWF.2.1
        · rw [hact, hmet]
          intro p hp
          rcases mem_aset_nodup hWF.1 hp with rfl | hp2
          · refine ⟨keysNodup_aset hOPnodup, ?_⟩
            intro q hq
            rcases mem_aset_nodup hOPnodup hq with rfl | hq2
            · refine ⟨keysNodup_adel hUPnodup, ?_⟩
              intro c hc
              have hcm := mem_adel_nodup hUPnodup hc
              rw [aget_adel_ne hcm.2]
              exact hWF.meta_of_pool hOP hUP hcm.1
            · refine ⟨((hWF.2.2 _ hOPmem).2 q hq2.1).1, ?_⟩
              intro c hc
              have hcne : c.1 ≠ cid := by
                intro he
                exact hq2.2 (hpin _ hOPmem q hq2.1 c hc he).2
              rw [aget_adel_ne hcne]
              exact ((hWF.2.2 _ hOPmem).2 q hq2.1).2 c hc
          · refine ⟨(hWF.2.2 p hp2.1).1, ?_⟩
            intro q hq
            refine ⟨((hWF.2.2 p hp2.1).2 q hq).1, ?_⟩
            intro c hc
            have hcne : c.1 ≠ cid := by
              intro he
              exact hp2.2 (hpin p hp2.1 q hq c hc he).1
            rw [aget_adel_ne hcne]
            exact ((hWF.2.2 p hp2.1).2 q hq).2 c hc

/-- Under WF, the disconnected connection is registered nowhere afterwards. -/
theorem disconnect_unregistered (s : ManagerState) (cid : ConnId) (hWF : WF s) :
    connRegistered (s.disconnect cid).1 cid = false := by
  rw [Bool.eq_false_iff]
  intro hreg
  rcases hm : aget cid s.connection_metadata with _ | m
  · rw [disconnect_absent s cid hm] at hreg
    rcases connRegistered_iff.mp hreg with ⟨p, hp, q, hq, hx⟩
    rcases Option.isSome_iff_exists.mp hx with ⟨ws, hws⟩
    have := hWF.meta_of_occurrence hp hq (aget_mem hws)
    rw [hm] at this
    simp at this
  · rcases hOP : aget m.organization_id s.active_connections with _ | OP
    · have hact : (s.disconnect cid).1.active_connections = s.active_connections := by
        simp only [ManagerState.disconnect, hm, hOP]
      rcases connRegistered_iff.mp hreg with ⟨p, hp, q, hq, hx⟩
      rw [hact] at hp
      rcases Option.isSome_iff_exists.mp hx with ⟨ws, hws⟩
      have hk := hWF.occurrence_key hp hq (aget_mem hws) hm
      have hps := aget_isSome_of_mem hp
      rw [hk.1, hOP] at hps
      simp at hps
    · rcases hUP : aget m.user_id OP with _ | UP
      · have hact : (s.disconnect cid).1.active_connections = s.active_connections := by
          simp only [ManagerState.disconnect, hm, hOP, hUP]
        rcases connRegistered_iff.mp hreg with ⟨p, hp, q, hq, hx⟩
        rw [hact] at hp
        rcases Option.isSome_iff_exists.mp hx with ⟨ws, hws⟩
        have hk := hWF.occurrence_key hp hq (aget_mem hws) hm
        have hp2 : aget p.1 s.active_connections = some p.2 :=
          aget_of_mem_nodup hWF.1 hp
        rw [hk.1, hOP] at hp2
        injection hp2 with hp2
        have hqs := aget_isSome_of_mem hq
        rw [hk.2, ← hp2, hUP] at hqs
        simp at hqs
      · rcases connRegistered_iff.mp hreg with ⟨p, hp, q, hq, hx⟩
        rw [disconnect_active_eq s cid m hm hOP hUP] at hp
        rcases mem_aset_nodup hWF.1 hp with rfl | hp2
        · rcases mem_aset_nodup (hWF.orgPool_nodup hOP) hq with rfl | hq2
          · rw [aget_adel_self_of_nodup (hWF.userPool_nodup hOP hUP)] at hx
            simp at hx
          · rcases Option.isSome_iff_exists.mp hx with ⟨ws, hws⟩
            have hk := hWF.occurrence_key (aget_mem hOP) hq2.1 (aget_mem hws) hm
            exact hq2.2 hk.2
        · rcases Option.isSome_iff_exists.mp hx with ⟨ws, hws⟩
          have hk := hWF.occurrence_key hp2.1 hq (aget_mem hws) hm
          exact hp2.2 hk.1

/-- Absent metadata stays absent across `disconnectAll`. -/
theorem disconnectAll_meta_none_mono (cids : List ConnId) : ∀ (s : ManagerState)
    (c : ConnId), aget c s.connection_metadata = none →
    aget c (s.disconnectAll cids).1.connection_metadata = none := by
  induction cids with
  | nil => intro s c h; exact h
  | cons cid rest ih =>
    intro s c h
    exact ih _ c (disconnect_meta_none_mono s cid c h)

/-- Registration is monotone along `disconnectAll`. -/
theorem connRegistered_disconnectAll_mono (cids : List ConnId) : ∀ (s : ManagerState)
    (x : ConnId), connRegistered (s.disconnectAll cids).1 x = true →
    connRegistered s x = true := by
  induction cids with
  | nil => intro s x h; exact h
  | cons cid rest ih =>
    intro s x h
    exact connRegistered_disconnect_mono s cid x (ih _ x h)

/-- `disconnectAll` over distinct known connections: preserves WF, emits one
disconnect event per connection in order, removes each from metadata and
registry, touches no other metadata, no other organizations and not the
queue. -/
theorem disconnectAll_spec (cids : List ConnId) : ∀ (s : ManagerState),
    WF s → cids.Nodup →
    (∀ cid ∈ cids, (aget cid s.connection_metadata).isSome) →
    WF (s.disconnectAll cids).1 ∧
    (s.disconnectAll cids).2 = cids.map Event.disconnected ∧
    (∀ cid ∈ cids, aget cid (s.disconnectAll cids).1.connection_metadata = none ∧
      connRegistered (s.disconnectAll cids).1 cid = false) ∧
    (∀ c, c ∉ cids → aget c (s.disconnectAll cids).1.connection_metadata =
      aget c s.connection_metadata) ∧
    (∀ o : OrgId, (∀ cid ∈ cids, ∀ m : Meta, aget cid s.connection_metadata = some m →
        m.organization_id ≠ o) →
      aget o (s.disconnectAll cids).1.active_connections = aget o s.active_connections) ∧
    (s.disconnectAll cids).1.message_queue = s.message_queue := by
  induction cids with
  | nil =>
    intro s hWF _ _
    exact ⟨hWF, rfl, by simp, fun c _ => rfl, fun o _ => rfl, rfl⟩
  | cons cid rest ih =>
    intro s hWF hnd hall
    obtain ⟨m, hm⟩ := Option.isSome_iff_exists.mp (hall cid (List.mem_cons_self _ _))
    have hWF1 := disconnect_WF s cid hWF
    have hnotmem : cid ∉ rest := (List.nodup_cons.mp hnd).1
    have hrest : ∀ c ∈ rest, (aget c (s.disconnect cid).1.connection_metadata).isSome := by
      intro c hc
      have hne : c ≠ cid := fun he => hnotmem (he ▸ hc)
      rw [disconnect_meta_ne s cid c hne]
      exact hall c (List.mem_cons_of_mem _ hc)
    have ihs := ih (s.disconnect cid).1 hWF1 (List.nodup_cons.mp hnd).2 hrest
    have h1 : (s.disconnectAll (cid :: rest)).1 =
        ((s.disconnect cid).1.disconnectAll rest).1 := rfl
    have h2 : (s.disconnectAll (cid :: rest)).2 =
        (s.disconnect cid).2 ++ ((s.disconnect cid).1.disconnectAll rest).2 := rfl
    refine ⟨?_, ?_, ?_, ?_, ?_, ?_⟩
    · rw [h1]; exact ihs.1
    · rw [h2, disconnect_events s cid m hm, ihs.2.1]
      rfl
    · intro c hc
      rcases List.mem_cons.mp hc with rfl | hc
      · constructor
        · rw [h1]
          exact disconnectAll_meta_none_mono rest _ c
            (disconnect_meta_none s c hWF.2.1)
        · rw [h1]
          rw [Bool.eq_false_iff]
          intro hreg
          have := connRegistered_disconnectAll_mono rest _ c hreg
          rw [disconnect_unregistered s c hWF] at this
          cases this
      · constructor
        · rw [h1]; exact (ihs.2.2.1 c hc).1
        · rw [h1]; exact (ihs.2.2.1 c hc).2
    · intro c hc
      have hne : c ≠ cid := fun he => hc (he ▸ List.mem_cons_self _ _)
      have hcr : c ∉ rest := fun hr => hc (List.mem_cons_of_mem _ hr)
      rw [h1, ihs.2.2.2.1 c hcr, disconnect_meta_ne s cid c hne]
    · intro o ho
      have hmo : m.organization_id ≠ o := ho cid (List.mem_cons_self _ _) m hm
      have hrest2 : ∀ c ∈ rest, ∀ m2 : Meta,
          aget c (s.disconnect cid).1.connection_metadata = some m2 →
          m2.organization_id ≠ o := by
        intro c hc m2 hm2
        have hne : c ≠ cid := fun he => hnotmem (he ▸ hc)
        rw [disconnect_meta_ne s cid c hne] at hm2
        exact ho c (List.mem_cons_of_mem _ hc) m2 hm2
      rw [h1, ihs.2.2.2.2.1 o hrest2,
        disconnect_active_ne s cid m hm o (Ne.symm hmo)]
    · rw [h1, ihs.2.2.2.2.2, disconnect_queue]

/-- Absent metadata stays absent across the revocation loop. -/
theorem revokeConnLoop_meta_none_mono (msg : Msg) (conns : List (ConnId × WS)) :
    ∀ (s : ManagerState) (c : ConnId), aget c s.connection_metadata = none →
    aget c (ManagerState.revokeConnLoop msg s conns).1.connection_metadata = none := by
  induction conns with
  | nil => intro s c h; exact h
  | cons c0 rest ih =>
    intro s c h
    exact ih _ c (disconnect_meta_none_mono s c0.1 c h)

/-- Registration is monotone along the revocation loop. -/
theorem connRegistered_revokeConnLoop_mono (msg : Msg) (conns : List (ConnId × WS)) :
    ∀ (s : ManagerState) (x : ConnId),
    connRegistered (ManagerState.revokeConnLoop msg s conns).1 x = true →
    connRegistered s x = true := by
  induction conns with
  | nil => intro s x h; exact h
  | cons c0 rest ih =>
    intro s x h
    exact connRegistered_disconnect_mono s c0.1 x (ih _ x h)

/-- The revocation loop over the registered pool of (org, user): preserves
WF, emits per connection the send (or failed send), the close attempt when
the send succeeded, and the disconnect, in program order; empties the pool;
touches no other organization and not the queue; removes every target
connection from metadata and registry. -/
theorem revokeConnLoop_spec (msg : Msg) : ∀ (conns : List (ConnId × WS))
    (s : ManagerState) (org : OrgId) (user : UserId) (OP : OrgPool),
    WF s →
    aget org s.active_connections = some OP →
    aget user OP = some conns →
    WF (ManagerState.revokeConnLoop msg s conns).1 ∧
    (ManagerState.revokeConnLoop msg s conns).2 =
      conns.flatMap (revokeEventsFor msg) ∧
    (∃ OP2, aget org (ManagerState.revokeConnLoop msg s conns).1.active_connections =
      some OP2 ∧ aget user OP2 = some []) ∧
    (∀ o, o ≠ org →
      aget o (ManagerState.revokeConnLoop msg s conns).1.active_connections =
        aget o s.active_connections) ∧
    (∀ c ∈ conns,
      aget c.1 (ManagerState.revokeConnLoop msg s conns).1.connection_metadata = none ∧
      connRegistered (ManagerState.revokeConnLoop msg s conns).1 c.1 = false) ∧
    (ManagerState.revokeConnLoop msg s conns).1.message_queue = s.message_queue := by
  intro conns
  induction conns with
  | nil =>
    intro s org user OP hWF hOP hUP
    exact ⟨hWF, rfl, ⟨OP, hOP, hUP⟩, fun o _ => rfl, by simp, rfl⟩
  | cons c rest ih =>
    intro s org user OP hWF hOP hUP
    have hmk := hWF.meta_of_pool hOP hUP (List.mem_cons_self c rest)
    rcases hm : aget c.1 s.connection_metadata with _ | m
    · rw [hm] at hmk
      simp at hmk
    · rw [hm] at hmk
      injection hmk with hmk
      have morg : m.organization_id = org := (Prod.ext_iff.mp hmk).1
      have muser : m.user_id = user := (Prod.ext_iff.mp hmk).2
      have hOPm : aget m.organization_id s.active_connections = some OP := by
        rw [morg]; exact hOP
      have hUPm : aget m.user_id OP = some (c :: rest) := by
        rw [muser]; exact hUP
      have hadel : adel c.1 (c :: rest) = rest := by simp [adel]
      have hact := disconnect_active_eq s c.1 m hm hOPm hUPm
      have hWF1 := disconnect_WF s c.1 hWF
      have hOP1 : aget org (s.disconnect c.1).1.active_connections =
          some (aset m.user_id (adel c.1 (c :: rest)) OP) := by
        rw [hact, ← morg]
        exact aget_aset_self _ _ _
      have hUP1 : aget user (aset m.user_id (adel c.1 (c :: rest)) OP) = some rest := by
        rw [← muser, hadel]
        exact aget_aset_self _ _ _
      have ihs := ih (s.disconnect c.1).1 org user _ hWF1 hOP1 hUP1
      have h1 : (ManagerState.revokeConnLoop msg s (c :: rest)).1 =
          (ManagerState.revokeConnLoop msg (s.disconnect c.1).1 rest).1 := rfl
      have h2 : (ManagerState.revokeConnLoop msg s (c :: rest)).2 =
          (if c.2.sendOk then
            Event.sent c.1 msg ::
              (if c.2.closeOk then [Event.closed c.1 1008] else [Event.closeFailed c.1])
          else [Event.sendFailed c.1]) ++ (s.disconnect c.1).2 ++
          (ManagerState.revokeConnLoop msg (s.disconnect c.1).1 rest).2 := rfl
      refine ⟨?_, ?_, ?_, ?_, ?_, ?_⟩
      · rw [h1]; exact ihs.1
      · rw [h2, disconnect_events s c.1 m hm, ihs.2.1]
        simp [revokeEventsFor, List.append_assoc]
      · rw [h1]; exact ihs.2.2.1
      · intro o ho
        rw [h1, ihs.2.2.2.1 o ho]
        exact disconnect_active_ne s c.1 m hm o (by rw [morg]; exact ho)
      · intro c2 hc2
        rcases List.mem_cons.mp hc2 with rfl | hc2
        · constructor
          · rw [h1]
            exact revokeConnLoop_meta_none_mono msg rest _ c2.1
              (disconnect_meta_none s c2.1 hWF.2.1)
          · rw [h1, Bool.eq_false_iff]
            intro hreg
            have := connRegistered_revokeConnLoop_mono msg rest _ c2.1 hreg
            rw [disconnect_unregistered s c2.1 hWF] at this
            cases this
        · constructor
          · rw [h1]; exact (ihs.2.2.2.2.1 c2 hc2).1
          · rw [h1]; exact (ihs.2.2.2.2.1 c2 hc2).2
      · rw [h1, ihs.2.2.2.2.2, disconnect_queue]

/-- C1 counterexample. The claim states the transport is closed with the
policy-violation code even when the send fails.  At a state whose single
registered connection for the target user fails its send, the revocation
trace contains the failed send and the registry disconnect but no close at
all: the exception from `send_json` jumps over `websocket.close(...)` into
the `except` block, and only the `finally` disconnect runs. -/
theorem claim_C1_counterexample :
    registeredUnder failSendState "o" "c" = true ∧
    Event.sendFailed "c" ∈
      (ManagerState.broadcast_session_revocation failSendState revokeU).2 ∧
    Event.closed "c" 1008 ∉
      (ManagerState.broadcast_session_revocation failSendState revokeU).2 ∧
    Event.disconnected "c" ∈
      (ManagerState.broadcast_session_revocation failSendState revokeU).2 := by
  refine ⟨by decide, by decide, by decide, by decide⟩

/-- C1 (amended): for every connection registered under
(organization_id, user_id) at call time, `broadcast_session_revocation`
attempts the revocation send; when the send succeeds it then attempts the
policy-violation close (code 1008); the registry disconnect always runs
last, even when the send or the close fails — but a failed send skips the
close.  Afterwards zero connections remain registered for that user in that
organization, and every target connection is gone from the metadata and the
whole registry. -/
theorem claim_C1_session_revocation (s : ManagerState) (session : SessionUpdate)
    (hWF : WF s) :
    ManagerState.get_user_connection_count
      (ManagerState.broadcast_session_revocation s session).1
      session.organization_id session.user_id = 0 ∧
    (ManagerState.broadcast_session_revocation s session).2 =
      ((userPoolAt s session.organization_id session.user_id).getD []).flatMap
        (revokeEventsFor (Msg.sessionRevoked session.reason session.timestamp)) ∧
    (∀ c ∈ (userPoolAt s session.organization_id session.user_id).getD [],
      aget c.1
        (ManagerState.broadcast_session_revocation s session).1.connection_metadata
        = none ∧
      connRegistered (ManagerState.broadcast_session_revocation s session).1 c.1
        = false) := by
  rcases hOP : aget session.organization_id s.active_connections with _ | OP
  · have hb : ManagerState.broadcast_session_revocation s session = (s, []) := by
      simp only [ManagerState.broadcast_session_revocation, hOP]
    rw [hb]
    have hu : userPoolAt s session.organization_id session.user_id = none := by
      simp [userPoolAt, hOP]
    rw [hu]
    refine ⟨?_, by simp, by simp⟩
    simp [ManagerState.get_user_connection_count, hOP]
  · rcases hUP : aget session.user_id OP with _ | conns
    · have hb : ManagerState.broadcast_session_revocation s session = (s, []) := by
        simp only [ManagerState.broadcast_session_revocation, hOP, hUP]
      rw [hb]
      have hu : userPoolAt s session.organization_id session.user_id = none := by
        simp [userPoolAt, hOP, hUP]
      rw [hu]
      refine ⟨?_, by simp, by simp⟩
      simp [ManagerState.get_user_connection_count, hOP, hUP]
    · have hb : ManagerState.broadcast_session_revocation s session =
          ManagerState.revokeConnLoop
            (Msg.sessionRevoked session.reason session.timestamp) s conns := by
        simp only [ManagerState.broadcast_session_revocation, hOP, hUP]
      have hu : userPoolAt s session.organization_id session.user_id = some conns := by
        simp [userPoolAt, hOP, hUP]
      have hspec := revokeConnLoop_spec
        (Msg.sessionRevoked session.reason session.timestamp) conns s
        session.organization_id session.user_id OP hWF hOP hUP
      rw [hb, hu]
      refine ⟨?_, hspec.2.1, ?_⟩
      · obtain ⟨OP2, hOP2, hUP2⟩ := hspec.2.2.1
        simp [ManagerState.get_user_connection_count, hOP2, hUP2]
      · intro c hc
        exact hspec.2.2.2.2.1 c hc

/-- C1 witness: at the failing-send one-connection state, zero connections
remain for the user afterwards and the trace is the expected one. -/
theorem claim_C1_witness :
    ManagerState.get_user_connection_count
      (ManagerState.broadcast_session_revocation failSendState revokeU).1 "o" "u" = 0 ∧
    (ManagerState.broadcast_session_revocation failSendState revokeU).2 =
      ((userPoolAt failSendState "o" "u").getD []).flatMap
        (revokeEventsFor (Msg.sessionRevoked "api_key_deactivated" 7)) :=
  ⟨(claim_C1_session_revocation failSendState revokeU (by decide)).1,
   (claim_C1_session_revocation failSendState revokeU (by decide)).2.1⟩

/-- Equal (org, user) metadata projections have equal presence. -/
theorem isSome_of_mapPairs_eq {o1 o2 : Option Meta}
    (h : o1.map (fun m => (m.organization_id, m.user_id)) =
      o2.map (fun m => (m.organization_id, m.user_id))) :
    o1.isSome = o2.isSome := by
  cases o1 <;> cases o2 <;> simp_all

/-- The inner fan-out loop of `broadcast_threat` over one user's pool: the
state changes only by restamping `last_heartbeat` of successfully reached
connections (registry, queue, metadata keys and metadata (org, user)
projections are preserved), the events are one send or failed send per
connection in order, and the collected failures are exactly the connections
whose send fails. -/
theorem threatConnLoop_spec (now : Nat) (msg : Msg) : ∀ (conns : List (ConnId × WS))
    (s : ManagerState),
    (∀ c ∈ conns, (aget c.1 s.connection_metadata).isSome) →
    (ManagerState.threatConnLoop now msg s conns).1.active_connections =
      s.active_connections ∧
    (ManagerState.threatConnLoop now msg s conns).1.message_queue = s.message_queue ∧
    (ManagerState.threatConnLoop now msg s conns).1.connection_metadata.map Prod.fst =
      s.connection_metadata.map Prod.fst ∧
    (∀ x : ConnId,
      (aget x (ManagerState.threatConnLoop now msg s conns).1.connection_metadata).map
        (fun m => (m.organization_id, m.user_id)) =
      (aget x s.connection_metadata).map (fun m => (m.organization_id, m.user_id))) ∧
    (ManagerState.threatConnLoop now msg s conns).2.1 =
      conns.map (fun c =>
        if c.2.sendOk then Event.sent c.1 msg else Event.sendFailed c.1) ∧
    (ManagerState.threatConnLoop now msg s conns).2.2 =
      (conns.filter (fun c => !c.2.sendOk)).map Prod.fst := by
  intro conns
  induction conns with
  | nil =>
    intro s _
    exact ⟨rfl, rfl, rfl, fun x => rfl, rfl, rfl⟩
  | cons c rest ih =>
    intro s hall
    by_cases hsend : c.2.sendOk
    · rcases hm : aget c.1 s.connection_metadata with _ | m
      · have := hall c (List.mem_cons_self c rest)
        rw [hm] at this
        cases this
      · have hmeta2 : ∃ mq : List (ConnId × Meta),
            mq = aset c.1 (Meta.mk m.organization_id m.user_id m.connected_at now)
              s.connection_metadata := ⟨_, rfl⟩
        obtain ⟨mq, hmq⟩ := hmeta2
        have hstep : ManagerState.threatConnStep now msg s c =
            ({ s with connection_metadata := mq }, [Event.sent c.1 msg], []) := by
          rw [hmq]
          simp only [ManagerState.threatConnStep, hsend, hm, if_pos]
        have hpairs : ∀ x : ConnId,
            (aget x mq).map (fun m2 => (m2.organization_id, m2.user_id)) =
            (aget x s.connection_metadata).map
              (fun m2 => (m2.organization_id, m2.user_id)) := by
          intro x
          rw [hmq]
          by_cases hx : x = c.1
          · subst hx
            rw [aget_aset_self, hm]
            simp
          · rw [aget_aset_ne hx]
        have hrest : ∀ c2 ∈ rest,
            (aget c2.1 ({ s with connection_metadata := mq } :
              ManagerState).connection_metadata).isSome := by
          intro c2 hc2
          show (aget c2.1 mq).isSome = true
          rw [isSome_of_mapPairs_eq (hpairs c2.1)]
          exact hall c2 (List.mem_cons_of_mem _ hc2)
        have ihs := ih _ hrest
        have h1 : ManagerState.threatConnLoop now msg s (c :: rest) =
            ((ManagerState.threatConnLoop now msg
                ({ s with connection_metadata := mq }) rest).1,
             [Event.sent c.1 msg] ++ (ManagerState.threatConnLoop now msg
                ({ s with connection_metadata := mq }) rest).2.1,
             [] ++ (ManagerState.threatConnLoop now msg
                ({ s with connection_metadata := mq }) rest).2.2) := by
          simp only [ManagerState.threatConnLoop, hstep]
        rw [h1]
        refine ⟨ihs.1, ihs.2.1, ?_, ?_, ?_, ?_⟩
        · rw [ihs.2.2.1]
          show mq.map Prod.fst = _
          rw [hmq]
          exact keys_aset_present (by rw [hm]; rfl)
        · intro x
          rw [ihs.2.2.2.1 x]
          exact hpairs x
        · rw [ihs.2.2.2.2.1]
          simp [hsend]
        · rw [ihs.2.2.2.2.2]
          simp [hsend]
    · have hstep : ManagerState.threatConnStep now msg s c =
          (s, [Event.sendFailed c.1], [c.1]) := by
        simp only [ManagerState.threatConnStep, hsend, if_neg, Bool.false_eq_true,
          not_false_iff]
      have hrest : ∀ c2 ∈ rest, (aget c2.1 s.connection_metadata).isSome := by
        intro c2 hc2
        exact hall c2 (List.mem_cons_of_mem _ hc2)
      have ihs := ih _ hrest
      have h1 : ManagerState.threatConnLoop now msg s (c :: rest) =
          ((ManagerState.threatConnLoop now msg s rest).1,
           [Event.sendFailed c.1] ++ (ManagerState.threatConnLoop now msg s rest).2.1,
           [c.1] ++ (ManagerState.threatConnLoop now msg s rest).2.2) := by
        simp only [ManagerState.threatConnLoop, hstep]
      rw [h1]
      refine ⟨ihs.1, ihs.2.1, ihs.2.2.1, ihs.2.2.2.1, ?_, ?_⟩
      · rw [ihs.2.2.2.2.1]
        simp [hsend]
      · rw [ihs.2.2.2.2.2]
        simp [hsend]

/-- The outer fan-out loop of `broadcast_threat` over all users. -/
theorem threatUserLoop_spec (now : Nat) (msg : Msg) : ∀ (OP : OrgPool)
    (s : ManagerState),
    (∀ u ∈ OP, ∀ c ∈ u.2, (aget c.1 s.connection_metadata).isSome) →
    (ManagerState.threatUserLoop now msg s OP).1.active_connections =
      s.active_connections ∧
    (ManagerState.threatUserLoop now msg s OP).1.message_queue = s.message_queue ∧
    (ManagerState.threatUserLoop now msg s OP).1.connection_metadata.map Prod.fst =
      s.connection_metadata.map Prod.fst ∧
    (∀ x : ConnId,
      (aget x (ManagerState.threatUserLoop now msg s OP).1.connection_metadata).map
        (fun m => (m.organization_id, m.user_id)) =
      (aget x s.connection_metadata).map (fun m => (m.organization_id, m.user_id))) ∧
    (ManagerState.threatUserLoop now msg s OP).2.1 = threatFanoutEvents msg OP ∧
    (ManagerState.threatUserLoop now msg s OP).2.2 = threatFailed OP := by
  intro OP
  induction OP with
  | nil =>
    intro s _
    exact ⟨rfl, rfl, rfl, fun x => rfl, rfl, rfl⟩
  | cons u rest ih =>
    intro s hall
    have hconns := threatConnLoop_spec now msg u.2 s (hall u (List.mem_cons_self u rest))
    have hrest : ∀ u2 ∈ rest, ∀ c ∈ u2.2,
        (aget c.1 (ManagerState.threatConnLoop now msg s u.2).1.connection_metadata).isSome := by
      intro u2 hu2 c hc
      rw [isSome_of_mapPairs_eq (hconns.2.2.2.1 c.1)]
      exact hall u2 (List.mem_cons_of_mem _ hu2) c hc
    have ihs := ih _ hrest
    have h1 : ManagerState.threatUserLoop now msg s (u :: rest) =
        ((ManagerState.threatUserLoop now msg
            (ManagerState.threatConnLoop now msg s u.2).1 rest).1,
         (ManagerState.threatConnLoop now msg s u.2).2.1 ++
           (ManagerState.threatUserLoop now msg
             (ManagerState.threatConnLoop now msg s u.2).1 rest).2.1,
         (ManagerState.threatConnLoop now msg s u.2).2.2 ++
           (ManagerState.threatUserLoop now msg
             (ManagerState.threatConnLoop now msg s u.2).1 rest).2.2) := rfl
    rw [h1]
    refine ⟨?_, ?_, ?_, ?_, ?_, ?_⟩
    · rw [ihs.1, hconns.1]
    · rw [ihs.2.1, hconns.2.1]
    · rw [ihs.2.2.1, hconns.2.2.1]
    · intro x
      rw [ihs.2.2.2.1 x, hconns.2.2.2.1 x]
    · rw [ihs.2.2.2.2.1, hconns.2.2.2.2.1]
      rfl
    · rw [ihs.2.2.2.2.2, hconns.2.2.2.2.2]
      rfl

/-- A projection that hits a value forces presence. -/
theorem isSome_of_map_eq_some {o : Option Meta} {v : OrgId × UserId}
    (h : o.map (fun m => (m.organization_id, m.user_id)) = some v) : o.isSome := by
  cases o
  · simp at h
  · rfl

/-- The failed connections are among the organization's connection ids. -/
theorem threatFailed_sublist (OP : OrgPool) :
    (threatFailed OP).Sublist (orgConnIds OP) := by
  induction OP with
  | nil => simp [threatFailed, orgConnIds]
  | cons u rest ih =>
    simp only [threatFailed, orgConnIds, List.flatMap_cons]
    exact ((List.filter_sublist _).map _).append ih

/-- Under WF, the connection ids of one organization are pairwise distinct,
also across users. -/
theorem orgConnIds_nodup {s : ManagerState} (hWF : WF s) {org : OrgId} {OP : OrgPool}
    (hOP : aget org s.active_connections = some OP) :
    (orgConnIds OP).Nodup := by
  unfold orgConnIds
  rw [List.nodup_flatMap]
  constructor
  · intro u hu
    exact ((hWF.2.2 _ (aget_mem hOP)).2 u hu).1
  · have hnd : OP.Pairwise (fun u1 u2 => u1.1 ≠ u2.1) :=
      List.pairwise_map.mp (hWF.orgPool_nodup hOP)
    refine hnd.imp_of_mem ?_
    intro u1 u2 h1 h2 hne x hx1 hx2
    rcases List.mem_map.mp hx1 with ⟨c1, hc1, rfl⟩
    rcases List.mem_map.mp hx2 with ⟨c2, hc2, he⟩
    have hm1 := hWF.meta_of_occurrence (aget_mem hOP) h1 hc1
    have hm2 := hWF.meta_of_occurrence (aget_mem hOP) h2 hc2
    rw [he] at hm2
    have h12 := hm1.symm.trans hm2
    injection h12 with h12
    exact hne ((Prod.ext_iff.mp h12).2)

/-- WF transfers along a state change that keeps the registry, the metadata
keys and the metadata (org, user) projections. -/
theorem WF_of_equiv (s s2 : ManagerState) (hWF : WF s)
    (hact : s2.active_connections = s.active_connections)
    (hkeys : s2.connection_metadata.map Prod.fst = s.connection_metadata.map Prod.fst)
    (hpairs : ∀ x : ConnId, (aget x s2.connection_metadata).map
        (fun m => (m.organization_id, m.user_id)) =
      (aget x s.connection_metadata).map (fun m => (m.organization_id, m.user_id))) :
    WF s2 := by
  refine ⟨?_, ?_, ?_⟩
  · unfold keysNodup
    rw [hact]
    exact hWF.1
  · unfold keysNodup
    rw [hkeys]
    exact hWF.2.1
  · rw [hact]
    intro p hp
    refine ⟨(hWF.2.2 p hp).1, ?_⟩
    intro q hq
    refine ⟨((hWF.2.2 p hp).2 q hq).1, ?_⟩
    intro c hc
    rw [hpairs c.1]
    exact ((hWF.2.2 p hp).2 q hq).2 c hc

/-- `broadcast_threat` over a present organization pool: the trace is the
full fan-out (one send or failed send per connection, in registry order)
followed by one disconnect per failed connection; the failed list has no
duplicates; every failed connection ends up unregistered with no metadata;
other organizations' pools, the queue, and well-formedness are preserved. -/
theorem broadcast_threat_spec (s : ManagerState) (t : ThreatEvent) (now : Nat)
    {OP : OrgPool} (hWF : WF s)
    (hOP : aget t.organization_id s.active_connections = some OP) :
    (ManagerState.broadcast_threat s t now).2 =
      threatFanoutEvents (Msg.threatDetected t) OP ++
        (threatFailed OP).map Event.disconnected ∧
    (threatFailed OP).Nodup ∧
    (∀ cid ∈ threatFailed OP,
      connRegistered (ManagerState.broadcast_threat s t now).1 cid = false ∧
      aget cid (ManagerState.broadcast_threat s t now).1.connection_metadata = none) ∧
    (∀ o, o ≠ t.organization_id →
      aget o (ManagerState.broadcast_threat s t now).1.active_connections =
        aget o s.active_connections) ∧
    WF (ManagerState.broadcast_threat s t now).1 ∧
    (ManagerState.broadcast_threat s t now).1.message_queue = s.message_queue := by
  have hall : ∀ u ∈ OP, ∀ c ∈ u.2, (aget c.1 s.connection_metadata).isSome := by
    intro u hu c hc
    exact isSome_of_map_eq_some (hWF.meta_of_occurrence (aget_mem hOP) hu hc)
  have husr := threatUserLoop_spec now (Msg.threatDetected t) OP s hall
  have hWF1 : WF (ManagerState.threatUserLoop now (Msg.threatDetected t) s OP).1 :=
    WF_of_equiv s _ hWF husr.1 husr.2.2.1 husr.2.2.2.1
  have hfnodup : (threatFailed OP).Nodup :=
    List.Nodup.sublist (threatFailed_sublist OP) (orgConnIds_nodup hWF hOP)
  have hfmeta : ∀ cid ∈ threatFailed OP, ∃ uid : UserId,
      (aget cid s.connection_metadata).map
        (fun m => (m.organization_id, m.user_id)) = some (t.organization_id, uid) := by
    intro cid hcid
    rcases List.mem_flatMap.mp hcid with ⟨u2, hu2, hcx⟩
    rcases List.mem_map.mp hcx with ⟨c, hcf, he⟩
    have hcm : c ∈ u2.2 := List.mem_of_mem_filter hcf
    have := hWF.meta_of_occurrence (aget_mem hOP) hu2 hcm
    exact ⟨u2.1, by rw [← he]; exact this⟩
  have hpresent : ∀ cid ∈ threatFailed OP,
      (aget cid (ManagerState.threatUserLoop now (Msg.threatDetected t) s
        OP).1.connection_metadata).isSome := by
    intro cid hcid
    rcases hfmeta cid hcid with ⟨uid, hx⟩
    rw [isSome_of_mapPairs_eq (husr.2.2.2.1 cid)]
    exact isSome_of_map_eq_some hx
  have hdall := disconnectAll_spec (threatFailed OP) _ hWF1 hfnodup hpresent
  have hb1 : (ManagerState.broadcast_threat s t now).1 =
      ((ManagerState.threatUserLoop now (Msg.threatDetected t) s OP).1.disconnectAll
        (ManagerState.threatUserLoop now (Msg.threatDetected t) s OP).2.2).1 := by
    simp only [ManagerState.broadcast_threat, hOP]
  have hb2 : (ManagerState.broadcast_threat s t now).2 =
      (ManagerState.threatUserLoop now (Msg.threatDetected t) s OP).2.1 ++
      ((ManagerState.threatUserLoop now (Msg.threatDetected t) s OP).1.disconnectAll
        (ManagerState.threatUserLoop now (Msg.threatDetected t) s OP).2.2).2 := by
    simp only [ManagerState.broadcast_threat, hOP]
  rw [husr.2.2.2.2.2] at hb1 hb2
  refine ⟨?_, hfnodup, ?_, ?_, ?_, ?_⟩
  · rw [hb2, husr.2.2.2.2.1, hdall.2.1]
  · intro cid hcid
    rw [hb1]
    exact ⟨(hdall.2.2.1 cid hcid).2, (hdall.2.2.1 cid hcid).1⟩
  · intro o ho
    have hno : ∀ cid ∈ threatFailed OP, ∀ m : Meta,
        aget cid (ManagerState.threatUserLoop now (Msg.threatDetected t) s
          OP).1.connection_metadata = some m → m.organization_id ≠ o := by
      intro cid hcid m hm
      rcases hfmeta cid hcid with ⟨uid, hx⟩
      have hp := husr.2.2.2.1 cid
      rw [hm, hx] at hp
      injection hp with hp
      intro he
      exact (Ne.symm ho) (by rw [← he]; exact (Prod.ext_iff.mp hp).1.symm)
    rw [hb1, hdall.2.2.2.2.1 o hno, husr.1]
  · rw [hb1]
    exact hdall.1
  · rw [hb1, hdall.2.2.2.2.2, husr.2.1]

/-- Every fan-out event names a connection of the organization pool. -/
theorem fanout_cid_mem {msg : Msg} {OP : OrgPool} {e : Event}
    (he : e ∈ threatFanoutEvents msg OP) : e.cid ∈ orgConnIds OP := by
  rcases List.mem_flatMap.mp he with ⟨u2, hu2, hce⟩
  rcases List.mem_map.mp hce with ⟨c, hc, rfl⟩
  have hcid : (if c.2.sendOk then Event.sent c.1 msg else Event.sendFailed c.1).cid
      = c.1 := by
    by_cases h : c.2.sendOk <;> simp [h, Event.cid]
  rw [hcid]
  exact List.mem_flatMap.mpr ⟨u2, hu2, List.mem_map_of_mem _ hc⟩

/-- Every event of one connection's revocation block names that connection. -/
theorem revokeEventsFor_cid (msg : Msg) (c : ConnId × WS) (e : Event)
    (he : e ∈ revokeEventsFor msg c) : e.cid = c.1 := by
  unfold revokeEventsFor at he
  by_cases h1 : c.2.sendOk
  · by_cases h2 : c.2.closeOk
    · simp [h1, h2] at he
      rcases he with rfl | rfl | rfl <;> rfl
    · simp [h1, h2] at he
      rcases he with rfl | rfl | rfl <;> rfl
  · simp [h1] at he
    rcases he with rfl | rfl <;> rfl

/-- Under WF, a connection of organization A's pool is registered under no
other organization B. -/
theorem not_registeredUnder_of_mem_org {s : ManagerState} {A B : OrgId} {cid : ConnId}
    {OP : OrgPool} (hWF : WF s) (hAB : A ≠ B)
    (hOP : aget A s.active_connections = some OP) (hcid : cid ∈ orgConnIds OP) :
    registeredUnder s B cid = false := by
  rw [Bool.eq_false_iff]
  intro hreg
  rcases hWF.meta_org_of_registeredUnder hreg with ⟨m, hm, hB⟩
  rcases List.mem_flatMap.mp hcid with ⟨u2, hu2, hcx⟩
  rcases List.mem_map.mp hcx with ⟨c, hc, he⟩
  have hk := hWF.occurrence_key (aget_mem hOP) hu2 hc (by rw [he]; exact hm)
  exact hAB (hk.1.trans hB)

/-- C5: `broadcast_threat` attempts delivery to every connection registered
under the event's organization (one send or failed-send event each, in
order), records every failure, and only after the full fan-out does it
disconnect each failing connection, exactly once per failing connection
(the failed list is duplicate-free and each failing connection ends up
unregistered); an organization with no pool entry yields no sends and no
state change. -/
theorem claim_C5_broadcast_threat (s : ManagerState) (t : ThreatEvent) (now : Nat)
    (hWF : WF s) :
    (aget t.organization_id s.active_connections = none →
      ManagerState.broadcast_threat s t now = (s, [])) ∧
    (∀ OP, aget t.organization_id s.active_connections = some OP →
      (ManagerState.broadcast_threat s t now).2 =
        threatFanoutEvents (Msg.threatDetected t) OP ++
          (threatFailed OP).map Event.disconnected ∧
      (∀ u ∈ OP, ∀ c ∈ u.2,
        (c.2.sendOk = true →
          Event.sent c.1 (Msg.threatDetected t) ∈
            (ManagerState.broadcast_threat s t now).2) ∧
        (c.2.sendOk = false →
          Event.sendFailed c.1 ∈ (ManagerState.broadcast_threat s t now).2 ∧
          c.1 ∈ threatFailed OP)) ∧
      (threatFailed OP).Nodup ∧
      (∀ cid ∈ threatFailed OP,
        connRegistered (ManagerState.broadcast_threat s t now).1 cid = false)) := by
  constructor
  · intro h
    simp only [ManagerState.broadcast_threat, h]
  · intro OP hOP
    have hspec := broadcast_threat_spec s t now hWF hOP
    refine ⟨hspec.1, ?_, hspec.2.1, ?_⟩
    · intro u hu c hc
      constructor
      · intro hsend
        rw [hspec.1]
        refine List.mem_append_left _ (List.mem_flatMap.mpr ⟨u, hu, ?_⟩)
        have : Event.sent c.1 (Msg.threatDetected t) =
            (if c.2.sendOk then Event.sent c.1 (Msg.threatDetected t)
             else Event.sendFailed c.1) := by simp [hsend]
        rw [this]
        exact List.mem_map_of_mem _ hc
      · intro hsend
        constructor
        · rw [hspec.1]
          refine List.mem_append_left _ (List.mem_flatMap.mpr ⟨u, hu, ?_⟩)
          have : Event.sendFailed c.1 =
              (if c.2.sendOk then Event.sent c.1 (Msg.threatDetected t)
               else Event.sendFailed c.1) := by simp [hsend]
          rw [this]
          exact List.mem_map_of_mem _ hc
        · refine List.mem_flatMap.mpr ⟨u, hu, ?_⟩
          refine List.mem_map.mpr ⟨c, ?_, rfl⟩
          exact List.mem_filter.mpr ⟨hc, by simp [hsend]⟩
    · intro cid hcid
      exact (hspec.2.2.1 cid hcid).1

/-- C5 witness: one registered failing connection: the trace is the failed
send followed by the disconnect. -/
theorem claim_C5_witness :
    (ManagerState.broadcast_threat failSendState threatO 7).2 =
      threatFanoutEvents (Msg.threatDetected threatO)
        [("u", [("c", { sendOk := false, closeOk := true })])] ++
      (threatFailed [("u", [("c", { sendOk := false, closeOk := true })])]).map
        Event.disconnected :=
  ((claim_C5_broadcast_threat failSendState threatO 7 (by decide)).2
    [("u", [("c", { sendOk := false, closeOk := true })])] (by decide)).1

/-- C10 counterexample. `broadcast_audit` only logs a send failure: at a
state whose single connection fails its send, the audit broadcast leaves the
state (hence the failing connection's registration) untouched, so the
failing connection is not "resolved by being disconnected". -/
theorem claim_C10_counterexample :
    (ManagerState.broadcast_audit failSendState auditO).1 = failSendState ∧
    Event.sendFailed "c" ∈ (ManagerState.broadcast_audit failSendState auditO).2 ∧
    connRegistered (ManagerState.broadcast_audit failSendState auditO).1 "c" = true := by
  refine ⟨by decide, by decide, by decide⟩

/-- C10 (amended): no broadcast operation propagates a partial delivery
failure to its caller (each is a total function of the state); for
`broadcast_threat` every connection whose send fails is disconnected from
the registry afterwards, and `broadcast_session_revocation` disconnects
every targeted connection; `broadcast_audit` however only logs send
failures: it never changes the state, leaving failing connections
registered. -/
theorem claim_C10_broadcast_failures (s : ManagerState) (t : ThreatEvent)
    (u : SessionUpdate) (a : AuditEvent) (now : Nat) (hWF : WF s) :
    (∀ OP, aget t.organization_id s.active_connections = some OP →
      ∀ cid ∈ threatFailed OP,
        connRegistered (ManagerState.broadcast_threat s t now).1 cid = false) ∧
    (∀ conns, userPoolAt s u.organization_id u.user_id = some conns →
      ∀ c ∈ conns,
        connRegistered (ManagerState.broadcast_session_revocation s u).1 c.1 = false) ∧
    (ManagerState.broadcast_audit s a).1 = s := by
  refine ⟨?_, ?_, ?_⟩
  · intro OP hOP cid hcid
    exact ((broadcast_threat_spec s t now hWF hOP).2.2.1 cid hcid).1
  · intro conns hconns c hc
    rcases hOP : aget u.organization_id s.active_connections with _ | OP
    · rw [userPoolAt, hOP] at hconns
      cases hconns
    · rcases hUP : aget u.user_id OP with _ | conns2
      · rw [userPoolAt, hOP] at hconns
        simp only [Option.some_bind] at hconns
        rw [hUP] at hconns
        cases hconns
      · rw [userPoolAt, hOP] at hconns
        simp only [Option.some_bind] at hconns
        rw [hUP] at hconns
        injection hconns with hconns
        subst hconns
        have hb : ManagerState.broadcast_session_revocation s u =
            ManagerState.revokeConnLoop
              (Msg.sessionRevoked u.reason u.timestamp) s conns2 := by
          simp only [ManagerState.broadcast_session_revocation, hOP, hUP]
        rw [hb]
        exact ((revokeConnLoop_spec _ conns2 s u.organization_id u.user_id OP
          hWF hOP hUP).2.2.2.2.1 c hc).2
  · rcases hOP : aget a.organization_id s.active_connections with _ | OP
    · simp [ManagerState.broadcast_audit, hOP]
    · simp [ManagerState.broadcast_audit, hOP]

/-- C10 witness: the failing connection of the threat broadcast is gone from
the registry afterwards. -/
theorem claim_C10_witness :
    connRegistered
      (ManagerState.broadcast_threat failSendState threatO 7).1 "c" = false :=
  (claim_C10_broadcast_failures failSendState threatO revokeU auditO 7
    (by decide)).1 [("u", [("c", { sendOk := false, closeOk := true })])]
    (by decide) "c" (by decide)

/-- C4: tenant isolation.  For organizations A ≠ B, a threat broadcast, a
session revocation and an audit broadcast whose events carry
organization_id A (here A is the threat event's organization, with the other
two tied to it) produce no event naming any connection registered under B,
and leave B's registry entry untouched (the audit broadcast changes no state
at all). -/
theorem claim_C4_tenant_isolation (s : ManagerState) (B : OrgId)
    (t : ThreatEvent) (u : SessionUpdate) (a : AuditEvent) (now : Nat)
    (hWF : WF s)
    (hut : u.organization_id = t.organization_id)
    (hat : a.organization_id = t.organization_id)
    (hAB : t.organization_id ≠ B) :
    (∀ e ∈ (ManagerState.broadcast_threat s t now).2,
      registeredUnder s B e.cid = false) ∧
    aget B (ManagerState.broadcast_threat s t now).1.active_connections =
      aget B s.active_connections ∧
    (∀ e ∈ (ManagerState.broadcast_session_revocation s u).2,
      registeredUnder s B e.cid = false) ∧
    aget B (ManagerState.broadcast_session_revocation s u).1.active_connections =
      aget B s.active_connections ∧
    (∀ e ∈ (ManagerState.broadcast_audit s a).2,
      registeredUnder s B e.cid = false) ∧
    (ManagerState.broadcast_audit s a).1 = s := by
  have hBu : B ≠ u.organization_id := by
    intro he
    exact hAB (by rw [← hut, ← he])
  refine ⟨?_, ?_, ?_, ?_, ?_, ?_⟩
  · intro e he
    rcases hOP : aget t.organization_id s.active_connections with _ | OP
    · rw [show ManagerState.broadcast_threat s t now = (s, []) from by
        simp only [ManagerState.broadcast_threat, hOP]] at he
      simp at he
    · have hspec := broadcast_threat_spec s t now hWF hOP
      rw [hspec.1] at he
      rcases List.mem_append.mp he with he | he
      · exact not_registeredUnder_of_mem_org hWF hAB hOP (fanout_cid_mem he)
      · rcases List.mem_map.mp he with ⟨cid, hcid, rfl⟩
        exact not_registeredUnder_of_mem_org hWF hAB hOP
          ((threatFailed_sublist OP).subset hcid)
  · rcases hOP : aget t.organization_id s.active_connections with _ | OP
    · rw [show ManagerState.broadcast_threat s t now = (s, []) from by
        simp only [ManagerState.broadcast_threat, hOP]]
    · exact (broadcast_threat_spec s t now hWF hOP).2.2.2.1 B (Ne.symm hAB)
  · intro e he
    rcases hOP : aget u.organization_id s.active_connections with _ | OP
    · rw [show ManagerState.broadcast_session_revocation s u = (s, []) from by
        simp only [ManagerState.broadcast_session_revocation, hOP]] at he
      simp at he
    · rcases hUP : aget u.user_id OP with _ | conns
      · rw [show ManagerState.broadcast_session_revocation s u = (s, []) from by
          simp only [ManagerState.broadcast_session_revocation, hOP, hUP]] at he
        simp at he
      · have hspec := revokeConnLoop_spec (Msg.sessionRevoked u.reason u.timestamp)
          conns s u.organization_id u.user_id OP hWF hOP hUP
        rw [show ManagerState.broadcast_session_revocation s u =
            ManagerState.revokeConnLoop
              (Msg.sessionRevoked u.reason u.timestamp) s conns from by
          simp only [ManagerState.broadcast_session_revocation, hOP, hUP],
          hspec.2.1] at he
        rcases List.mem_flatMap.mp he with ⟨c, hc, hce⟩
        rw [revokeEventsFor_cid _ c e hce]
        have hmem : c.1 ∈ orgConnIds OP :=
          List.mem_flatMap.mpr ⟨(u.user_id, conns), aget_mem hUP,
            List.mem_map_of_mem _ hc⟩
        exact not_registeredUnder_of_mem_org hWF (Ne.symm hBu) hOP hmem
  · rcases hOP : aget u.organization_id s.active_connections with _ | OP
    · rw [show ManagerState.broadcast_session_revocation s u = (s, []) from by
        simp only [ManagerState.broadcast_session_revocation, hOP]]
    · rcases hUP : aget u.user_id OP with _ | conns
      · rw [show ManagerState.broadcast_session_revocation s u = (s, []) from by
          simp only [ManagerState.broadcast_session_revocation, hOP, hUP]]
      · have hspec := revokeConnLoop_spec (Msg.sessionRevoked u.reason u.timestamp)
          conns s u.organization_id u.user_id OP hWF hOP hUP
        rw [show ManagerState.broadcast_session_revocation s u =
            ManagerState.revokeConnLoop
              (Msg.sessionRevoked u.reason u.timestamp) s conns from by
          simp only [ManagerState.broadcast_session_revocation, hOP, hUP]]
        exact hspec.2.2.2.1 B hBu
  · intro e he
    rcases hOP : aget a.organization_id s.active_connections with _ | OP
    · rw [show ManagerState.broadcast_audit s a = (s, []) from by
        simp [ManagerState.broadcast_audit, hOP]] at he
      simp at he
    · have htr : (ManagerState.broadcast_audit s a).2 =
          threatFanoutEvents (Msg.auditLog a) OP := by
        simp [ManagerState.broadcast_audit, hOP, threatFanoutEvents]
      rw [htr] at he
      have hOPt : aget t.organization_id s.active_connections = some OP := by
        rw [← hat]; exact hOP
      exact not_registeredUnder_of_mem_org hWF hAB hOPt (fanout_cid_mem he)
  · rcases hOP : aget a.organization_id s.active_connections with _ | OP
    · simp [ManagerState.broadcast_audit, hOP]
    · simp [ManagerState.broadcast_audit, hOP]

/-- C4 witness: with one connection under organization o and B the foreign
organization b, b's (absent) registry entry is untouched by the threat
broadcast. -/
theorem claim_C4_witness :
    aget "b" (ManagerState.broadcast_threat failSendState threatO 7).1.active_connections
      = aget "b" failSendState.active_connections ∧
    (ManagerState.broadcast_audit failSendState auditO).1 = failSendState :=
  ⟨(claim_C4_tenant_isolation failSendState "b" threatO revokeU auditO 7
      (by decide) rfl rfl (by decide)).2.1,
   (claim_C4_tenant_isolation failSendState "b" threatO revokeU auditO 7
      (by decide) rfl rfl (by decide)).2.2.2.2.2⟩

/-- The flush events of connections other than `cid` deliver nothing to
`cid`. -/
theorem flushEvents_other (cid : ConnId) (msgs : List Msg) :
    ∀ (pool : List (ConnId × WS)), (∀ c ∈ pool, c.1 ≠ cid) →
    (pool.flatMap (fun c => msgs.map (fun m =>
      if c.2.sendOk then Event.sent c.1 m else Event.sendFailed c.1))).filterMap
      (sentTo cid) = [] := by
  intro pool
  induction pool with
  | nil => simp
  | cons c rest ih =>
    intro h
    simp only [List.flatMap_cons, List.filterMap_append]
    rw [ih (fun c2 hc2 => h c2 (List.mem_cons_of_mem _ hc2)), List.append_nil]
    rw [List.filterMap_map]
    rw [List.filterMap_eq_nil_iff]
    intro m _
    by_cases hsend : c.2.sendOk
    · simp [hsend, Function.comp, sentTo, h c (List.mem_cons_self c rest)]
    · simp [hsend, Function.comp, sentTo]

/-- The flush events of the connection itself, when its sends succeed,
deliver exactly the queued messages in order. -/
theorem flushEvents_self (cid : ConnId) (ws : WS) (hsend : ws.sendOk = true)
    (msgs : List Msg) :
    (msgs.map (fun m =>
      if ws.sendOk then Event.sent cid m else Event.sendFailed cid)).filterMap
      (sentTo cid) = msgs := by
  rw [List.filterMap_map]
  have : (sentTo cid ∘ fun m =>
      if ws.sendOk then Event.sent cid m else Event.sendFailed cid) =
      fun m => some m := by
    funext m
    simp [hsend, Function.comp, sentTo]
  rw [this]
  simp

/-- C8: `connect` for a key with N ≥ 1 queued messages registers the new
connection at the end of the key's pool, attempts delivery of every queued
message, in FIFO order, to every connection of the key including the new one
(one event per (connection, message) pair, regardless of any failures),
deletes the queue entry afterwards even when sends fail, and — when the new
connection's transport works — the new connection is sent exactly those N
messages in their original order. -/
theorem claim_C8_connect_flush (s : ManagerState) (ws : WS) (org : OrgId)
    (user : UserId) (cid : ConnId) (now : Nat) (msgs : List Msg)
    (hq : aget (ManagerState.queueKey org user) s.message_queue = some msgs)
    (_hN : msgs ≠ [])
    (hqnd : keysNodup s.message_queue)
    (hfresh : aget cid
      ((aget user ((aget org s.active_connections).getD [])).getD []) = none) :
    (s.connect ws org user cid now).2.2 = true ∧
    aget (ManagerState.queueKey org user)
      (s.connect ws org user cid now).1.message_queue = none ∧
    (s.connect ws org user cid now).2.1 =
      (((aget user ((aget org s.active_connections).getD [])).getD [] ++
          [(cid, ws)]).flatMap
        (fun c => msgs.map (fun m =>
          if c.2.sendOk then Event.sent c.1 m else Event.sendFailed c.1))) ∧
    (ws.sendOk = true →
      ((s.connect ws org user cid now).2.1).filterMap (sentTo cid) = msgs) := by
  have hconn : s.connect ws org user cid now =
      ({ active_connections :=
          aset org (aset user (aset cid ws
              ((aget user ((aget org s.active_connections).getD [])).getD []))
            ((aget org s.active_connections).getD [])) s.active_connections,
         connection_metadata :=
          aset cid (Meta.mk org user now now) s.connection_metadata,
         message_queue := adel (ManagerState.queueKey org user) s.message_queue },
       ((aset cid ws
          ((aget user ((aget org s.active_connections).getD [])).getD [])).flatMap
         (fun c => msgs.map (fun m =>
           if c.2.sendOk then Event.sent c.1 m else Event.sendFailed c.1))),
       true) := by
    simp only [ManagerState.connect, ManagerState.flush_queue, hq,
      aget_aset_self]
  have hset := aset_absent (v := ws) hfresh
  refine ⟨?_, ?_, ?_, ?_⟩
  · rw [hconn]
  · rw [hconn]
    exact aget_adel_self_of_nodup hqnd
  · rw [hconn, hset]
  · intro hsend
    rw [hconn, hset]
    have hother : ∀ c ∈ (aget user
        ((aget org s.active_connections).getD [])).getD [], c.1 ≠ cid := by
      intro c hc he
      have := aget_isSome_of_mem hc
      rw [he, hfresh] at this
      cases this
    rw [List.flatMap_append, List.filterMap_append,
      flushEvents_other cid msgs _ hother, List.nil_append]
    simp only [List.flatMap_cons, List.flatMap_nil, List.append_nil]
    exact flushEvents_self cid ws hsend msgs

/-- C8 witness: connecting a working transport to a key with two queued
messages delivers exactly those two messages, in order, to the new
connection. -/
theorem claim_C8_witness :
    ((queuedState.connect { sendOk := true, closeOk := true }
        "o" "u" "c" 5).2.1).filterMap (sentTo "c") =
      [Msg.raw "m1", Msg.raw "m2"] :=
  (claim_C8_connect_flush queuedState { sendOk := true, closeOk := true }
    "o" "u" "c" 5 [Msg.raw "m1", Msg.raw "m2"]
    (by decide) (by decide) (by decide) (by decide)).2.2.2 rfl

/-- After marking with a list of ids covering every unprocessed item, every
item of the buffer is processed. -/
theorem all_processed_after_mark (l : List FeedbackItem) (ids : List String) (now : Nat)
    (h : ∀ it ∈ l, it.is_processed = false → it.threat_log_id ∈ ids) :
    ∀ it ∈ l.map (fun it =>
      if it.threat_log_id ∈ ids then
        { it with is_processed := true, processed_at := some now }
      else it), it.is_processed = true := by
  intro it hit
  rcases List.mem_map.mp hit with ⟨a, ha, rfl⟩
  by_cases hm : a.threat_log_id ∈ ids
  · simp [hm]
  · simp only [hm, if_neg, not_false_iff]
    cases hpa : a.is_processed
    · exact absurd (h a ha hpa) hm
    · rfl

/-- `trigger_retraining` below the threshold is a pure no-op. -/
theorem trigger_retraining_noop (o : Orchestrator) (now : Nat)
    (h : o.feedback_buffer.should_retrain = false) :
    o.trigger_retraining now = (o, false) := by
  simp [Orchestrator.trigger_retraining, h]

/-- C3: `trigger_retraining` returns false and changes nothing when
`should_retrain` is false; otherwise it returns true, appends exactly one
pending job whose `feedback_ids` is the snapshot of the unprocessed ids and
whose `feedback_count` is the snapshot length, and marks exactly the items
with those ids processed (stamping `processed_at`, leaving all other items
unchanged); consequently, for any positive threshold, an immediate second
call finds no unprocessed feedback, creates no further job and returns
false. -/
theorem claim_C3_trigger_retraining (o : Orchestrator) (now now2 : Nat) :
    (o.feedback_buffer.should_retrain = false →
      o.trigger_retraining now = (o, false)) ∧
    (o.feedback_buffer.should_retrain = true →
      (o.trigger_retraining now).2 = true ∧
      (o.trigger_retraining now).1.retraining_jobs = o.retraining_jobs ++
        [{ job_id := toString now, status := "pending",
           feedback_count := o.feedback_buffer.get_unprocessed_feedback.length,
           created_at := now,
           feedback_ids :=
             o.feedback_buffer.get_unprocessed_feedback.map FeedbackItem.threat_log_id }] ∧
      (∀ i : Nat, (o.trigger_retraining now).1.feedback_buffer.buffer[i]? =
        (o.feedback_buffer.buffer[i]?).map (fun it =>
          if it.threat_log_id ∈
              o.feedback_buffer.get_unprocessed_feedback.map FeedbackItem.threat_log_id then
            { it with is_processed := true, processed_at := some now }
          else it)) ∧
      (1 ≤ o.feedback_buffer.retraining_threshold →
        (o.trigger_retraining now).1.trigger_retraining now2 =
          ((o.trigger_retraining now).1, false))) := by
  constructor
  · intro h
    exact trigger_retraining_noop o now h
  · intro h
    have hcond : (!o.feedback_buffer.should_retrain) = false := by simp [h]
    have hbuf : (o.trigger_retraining now).1.feedback_buffer.buffer =
        o.feedback_buffer.buffer.map (fun it =>
          if it.threat_log_id ∈
              o.feedback_buffer.get_unprocessed_feedback.map FeedbackItem.threat_log_id then
            { it with is_processed := true, processed_at := some now }
          else it) := by
      simp [Orchestrator.trigger_retraining, hcond, FeedbackBuffer.mark_as_processed]
    have hthr : (o.trigger_retraining now).1.feedback_buffer.retraining_threshold =
        o.feedback_buffer.retraining_threshold := by
      simp [Orchestrator.trigger_retraining, hcond, FeedbackBuffer.mark_as_processed]
    refine ⟨?_, ?_, ?_, ?_⟩
    · simp [Orchestrator.trigger_retraining, hcond]
    · simp [Orchestrator.trigger_retraining, hcond]
    · intro i
      rw [hbuf, List.getElem?_map]
    · intro ht
      have hmem : ∀ it ∈ o.feedback_buffer.buffer, it.is_processed = false →
          it.threat_log_id ∈
            o.feedback_buffer.get_unprocessed_feedback.map FeedbackItem.threat_log_id := by
        intro it hit hp
        exact List.mem_map_of_mem _
          (List.mem_filter.mpr ⟨hit, by simp [hp]⟩)
      have hfil : (o.trigger_retraining now).1.feedback_buffer.buffer.filter
          (fun it => !it.is_processed) = [] := by
        rw [List.filter_eq_nil_iff]
        intro a ha
        rw [hbuf] at ha
        have := all_processed_after_mark o.feedback_buffer.buffer _ now hmem a ha
        simp [this]
      have hsr : (o.trigger_retraining now).1.feedback_buffer.should_retrain = false := by
        simp only [FeedbackBuffer.should_retrain, hfil, hthr, List.length_nil]
        simp only [decide_eq_false_iff_not]
        omega
      exact trigger_retraining_noop _ now2 hsr

/-- C3 witness: an orchestrator at threshold 2 with two unprocessed items:
the first call fires, the second call is a no-op returning false. -/
theorem claim_C3_witness :
    (readyOrchestrator.trigger_retraining 5).2 = true ∧
    (readyOrchestrator.trigger_retraining 5).1.trigger_retraining 6 =
      ((readyOrchestrator.trigger_retraining 5).1, false) :=
  ⟨((claim_C3_trigger_retraining readyOrchestrator 5 6).2 (by decide)).1,
   ((claim_C3_trigger_retraining readyOrchestrator 5 6).2 (by decide)).2.2.2 (by decide)⟩

/-- Preservation of the 1000-entry bound by one `queue_message` call. -/
theorem queue_message_bounded (s : ManagerState) (org : OrgId) (user : UserId)
    (m : Msg) (hB : ManagerState.QueueBounded s) :
    ManagerState.QueueBounded (s.queue_message org user m) := by
  intro k q hk
  by_cases hkey : k = ManagerState.queueKey org user
  · subst hkey
    simp only [ManagerState.queue_message] at hk
    split at hk
    · rw [aget_aset_self] at hk
      injection hk with hq
      subst hq
      rename_i hlen
      simp only [List.length_append, List.length_cons, List.length_nil]
      omega
    · rw [aget_aset_self] at hk
      injection hk with hq
      subst hq
      rcases hget : aget (ManagerState.queueKey org user) s.message_queue with _ | q1
      · simp [hget]
      · simp only [hget, Option.getD_some]
        exact hB _ _ hget
  · simp only [ManagerState.queue_message] at hk
    split at hk <;> rw [aget_aset_ne hkey] at hk <;> exact hB _ _ hk

/-- C9: `queue_message` appends the message iff the per-key queue holds fewer
than 1000 entries and otherwise leaves the queue unchanged, touches no other
key and no other state, never errors, and starting from any bounded state no
sequence of `queue_message` calls ever pushes any key's queue above 1000
entries. -/
theorem claim_C9_queue_bound (s : ManagerState) (org : OrgId) (user : UserId) (m : Msg)
    (calls : List (OrgId × UserId × Msg)) (hB : ManagerState.QueueBounded s) :
    (aget (ManagerState.queueKey org user) (s.queue_message org user m).message_queue =
      some (if ((aget (ManagerState.queueKey org user) s.message_queue).getD []).length < 1000
        then (aget (ManagerState.queueKey org user) s.message_queue).getD [] ++ [m]
        else (aget (ManagerState.queueKey org user) s.message_queue).getD [])) ∧
    (∀ k, k ≠ ManagerState.queueKey org user →
      aget k (s.queue_message org user m).message_queue = aget k s.message_queue) ∧
    (s.queue_message org user m).active_connections = s.active_connections ∧
    (s.queue_message org user m).connection_metadata = s.connection_metadata ∧
    ManagerState.QueueBounded (ManagerState.applyQueueCalls s calls) := by
  refine ⟨?_, ?_, ?_, ?_, ?_⟩
  · simp only [ManagerState.queue_message]
    by_cases hlen : ((aget (ManagerState.queueKey org user) s.message_queue).getD []).length < 1000
    · rw [if_pos hlen]
      simp only [if_pos hlen]
      exact aget_aset_self _ _ _
    · rw [if_neg hlen]
      simp only [if_neg hlen]
      exact aget_aset_self _ _ _
  · intro k hk
    simp only [ManagerState.queue_message]
    by_cases hlen : ((aget (ManagerState.queueKey org user) s.message_queue).getD []).length < 1000
    · simp only [if_pos hlen]
      exact aget_aset_ne hk _ _
    · simp only [if_neg hlen]
      exact aget_aset_ne hk _ _
  · simp only [ManagerState.queue_message]
    by_cases hlen : ((aget (ManagerState.queueKey org user) s.message_queue).getD []).length < 1000
    · simp [if_pos hlen]
    · simp [if_neg hlen]
  · simp only [ManagerState.queue_message]
    by_cases hlen : ((aget (ManagerState.queueKey org user) s.message_queue).getD []).length < 1000
    · simp [if_pos hlen]
    · simp [if_neg hlen]
  · induction calls generalizing s with
    | nil => exact hB
    | cons c rest ih =>
      exact ih _ (queue_message_bounded s c.1 c.2.1 c.2.2 hB)

/-- C9 witness: queueing onto the empty state stores the message under the
key. -/
theorem claim_C9_witness :
    aget (ManagerState.queueKey "o" "u")
      ((failSendState.queue_message "o" "u" (Msg.raw "m1")).message_queue) =
      some [Msg.raw "m1"] := by
  have h := claim_C9_queue_bound failSendState "o" "u" (Msg.raw "m1") []
    (by intro k q hq; simp [failSendState, aget] at hq)
  rw [h.1]
  rfl

end Sentinel
